import Mathlib

/-!
Verification of the Pocket Scout signal pipeline.

This file gives a shallow embedding, in Lean, of the numeric core of the
Pocket Scout trading extension: the candle aggregator (ring buffer plus
`pushTick`), the technical-indicator library, the RL integration layer
(reward shaping, epsilon decay, bandit weights, state encoding), the
experience-replay buffer, the signal-timing controller and the soft-gate
confidence adjustment of the publish step.  JS numbers are modelled as
real numbers (so `NaN`/`Infinity` have no representative and `0` is the
only falsy numeric value); millisecond timestamps are modelled as
integers; JS `null`/`undefined` results are modelled with `Option`.

Definitions first, theorems afterwards.
-/

/- ===================== JS numeric helpers ===================== -/

/-- JS `Math.round`: round half toward positive infinity. -/
noncomputable def jsRound (x : ℝ) : ℝ := ((⌊x + 1/2⌋ : ℤ) : ℝ)

/-- JS `x || d` for an optional numeric value: `undefined` and `0` are
falsy (in this embedding `none` models `undefined`/`null`, and `0` is the
only falsy number since `NaN` has no representative). -/
noncomputable def jsOrNum (o : Option ℝ) (d : ℝ) : ℝ :=
  match o with
  | none => d
  | some v => if v = 0 then d else v

/-- JS truthiness of an optional numeric value (`undefined`, `null` and
`0` are falsy). -/
def numTruthy (o : Option ℝ) : Prop :=
  match o with
  | none => False
  | some v => v ≠ 0

noncomputable instance (o : Option ℝ) : Decidable (numTruthy o) := by
  unfold numTruthy
  cases o with
  | none => exact inferInstance
  | some v => exact inferInstance

/- ===================== RL integration: state ===================== -/

/-- Risk levels stored in `lastRiskSnapshot` (rl-integration.js, line 143). -/
inductive RiskLevel where
  | EXTREME
  | HIGH
  | LOW
  | BALANCED
deriving DecidableEq

/-- The `marketConditions` argument of `calculateReward`
(rl-integration.js, lines 299-306); its `stability` field may be absent. -/
structure MarketConditions where
  stability : Option ℝ

/-- Module-level mutable state of rl-integration.js that `calculateReward`
reads and writes (lines 99-113). -/
structure RLState where
  epsilon : ℝ
  sessionWins : ℕ
  sessionLosses : ℕ
  currentStreak : ℤ
  maxStreak : ℤ
  cumulativeReward : ℝ
  totalExperiences : ℕ
  lastRiskSnapshot : Option RiskLevel

/-- CONFIG.EPSILON_MIN (rl-integration.js, line 11). -/
noncomputable def EPSILON_MIN : ℝ := 1/100

/-- CONFIG.EPSILON_DECAY (rl-integration.js, line 12). -/
noncomputable def EPSILON_DECAY : ℝ := 9995/10000

/-- CONFIG.EPSILON_DECAY_FAST (rl-integration.js, line 13). -/
noncomputable def EPSILON_DECAY_FAST : ℝ := 997/1000

/-- Initial module state: epsilon = CONFIG.EPSILON = 0.30, all counters 0,
no risk snapshot (rl-integration.js, lines 99-113). -/
noncomputable def initRLState : RLState :=
  { epsilon := 3/10
    sessionWins := 0
    sessionLosses := 0
    currentStreak := 0
    maxStreak := 0
    cumulativeReward := 0
    totalExperiences := 0
    lastRiskSnapshot := none }

/-- `calculateReward(result, signalConfidence, marketConditions)`
(rl-integration.js, lines 269-327).  Returns the reward together with the
updated module state.  The JS strings WIN/LOSS are kept as strings. -/
noncomputable def calculateReward (s : RLState) (result : String)
    (signalConfidence : Option ℝ) (marketConditions : Option MarketConditions) :
    ℝ × RLState :=
  let rs :=
    if result = "WIN" then
      let streak := max 0 s.currentStreak + 1
      ((10 : ℝ), { s with currentStreak := streak
                          sessionWins := s.sessionWins + 1
                          maxStreak := max s.maxStreak streak })
    else if result = "LOSS" then
      ((-5 : ℝ), { s with currentStreak := min 0 s.currentStreak - 1
                          sessionLosses := s.sessionLosses + 1 })
    else ((0 : ℝ), s)
  let reward := rs.1
  let s := rs.2
  -- confidence-based adjustments (reward shaping)
  let reward :=
    match signalConfidence with
    | none => reward
    | some conf =>
      if result = "WIN" then
        let reward := reward + (conf - 60) / 10
        if 85 ≤ conf then reward + 5 else reward
      else if result = "LOSS" then
        let reward :=
          if 85 ≤ conf then reward - 10
          else if 75 ≤ conf then reward - 5
          else reward
        if 80 ≤ conf then reward - 3 else reward
      else reward
  -- market conditions bonus/penalty
  let reward :=
    match marketConditions with
    | none => reward
    | some mc =>
      let stability := jsOrNum mc.stability 50
      if result = "WIN" ∧ 70 < stability then reward + 2
      else if result = "LOSS" ∧ stability < 30 then reward + 1
      else reward
  -- volatility-aware reward shaping
  let reward :=
    match s.lastRiskSnapshot with
    | none => reward
    | some lvl =>
      if result = "WIN" ∧ lvl = RiskLevel.HIGH then reward + 3/2
      else if result = "LOSS" ∧ lvl = RiskLevel.EXTREME then reward + 1/2
      else reward
  let s := { s with cumulativeReward := s.cumulativeReward + reward
                    totalExperiences := s.totalExperiences + 1 }
  -- decay epsilon (the floor is checked before the multiplication)
  let s :=
    if EPSILON_MIN < s.epsilon then
      { s with epsilon :=
          s.epsilon *
            (if 100 < s.totalExperiences then EPSILON_DECAY_FAST else EPSILON_DECAY) }
    else s
  (reward, s)

/-- One outcome event fed to `calculateReward`. -/
structure OutcomeEvent where
  result : String
  signalConfidence : Option ℝ
  marketConditions : Option MarketConditions

/-- Folding a sequence of outcome events through `calculateReward`,
starting from the initial module state. -/
noncomputable def runOutcomes (events : List OutcomeEvent) : RLState :=
  events.foldl
    (fun s e => (calculateReward s e.result e.signalConfidence e.marketConditions).2)
    initRLState

/-- An outcome event carrying only a LOSS result (no confidence, no
market conditions). -/
def lossEvent : OutcomeEvent := ⟨"LOSS", none, none⟩

/-- Closed form of the epsilon value after `n` LOSS outcomes, as long as
the value has stayed above the floor: the first 100 outcomes use the slow
decay, later ones the fast decay. -/
noncomputable def epsForm (n : ℕ) : ℝ :=
  3/10 * EPSILON_DECAY ^ (min n 100) * EPSILON_DECAY_FAST ^ (n - 100)

/- ===================== RL integration: bandit weights ===================== -/

/-- `getBanditWeight(groupId)` (rl-integration.js, lines 56-59): empty
(falsy) group ids give 1, otherwise `banditWeights[groupId] || 1`. -/
noncomputable def getBanditWeight (banditWeights : String → Option ℝ)
    (groupId : String) : ℝ :=
  if groupId = "" then 1 else jsOrNum (banditWeights groupId) 1

/-- `updateBanditWeight(groupId, result, confidence)` (rl-integration.js,
lines 66-74), acting on the `banditWeights` map. -/
noncomputable def updateBanditWeight (banditWeights : String → Option ℝ)
    (groupId : String) (result : String) (confidence : ℝ) :
    String → Option ℝ :=
  if groupId = "" then banditWeights
  else
    let base := jsOrNum (banditWeights groupId) 1
    let adj :=
      if result = "WIN" then 1/20 + (confidence - 60) / 500
      else -(1/20) - (confidence - 60) / 400
    Function.update banditWeights groupId
      (some (min 2 (max (1/2) (base + adj))))

/-- One bandit update event. -/
structure BanditEvent where
  groupId : String
  result : String
  confidence : ℝ

/-- Folding bandit update events over the initially empty weight map. -/
noncomputable def runBanditUpdates (events : List BanditEvent) :
    String → Option ℝ :=
  events.foldl
    (fun m e => updateBanditWeight m e.groupId e.result e.confidence)
    (fun _ => none)

/- ===================== Market regime descriptor ===================== -/

/-- Volatility part of a regime descriptor. -/
structure VolInfo where
  level : String

/-- Trend part of a regime descriptor. -/
structure TrendInfo where
  direction : String
  strength : String

/-- The regime descriptor as consumed by `encodeState` and the timing
controller; either part may be absent. -/
structure RegimeData where
  volatility : Option VolInfo
  trend : Option TrendInfo

/- ===================== Signal timing controller ===================== -/

/-- JS truthiness of an optional integer (`null` and `0` are falsy). -/
def intTruthy (o : Option ℤ) : Prop :=
  match o with
  | none => False
  | some v => v ≠ 0

instance (o : Option ℤ) : Decidable (intTruthy o) := by
  unfold intTruthy
  cases o with
  | none => exact inferInstance
  | some v => exact inferInstance

/-- The pending signal held while a timing window is open
(signal-timing-controller.js, lines 204-209). -/
structure PendingSignal where
  action : String
  groupId : String
  groupName : String
  initialPrice : Option ℝ

/-- The signal data handed to `startTimingWindow`. -/
structure SignalData where
  action : String
  groupId : String
  groupName : String
  price : Option ℝ
  confidence : ℝ

/-- MIN_DELAY_MS (signal-timing-controller.js, line 9). -/
def MIN_DELAY_MS : ℤ := 60 * 1000

/-- MAX_DELAY_MS (signal-timing-controller.js, line 10). -/
def MAX_DELAY_MS : ℤ := 300 * 1000

/-- Module state of signal-timing-controller.js (lines 13-18).  The
interval handle is modelled as a Bool recording whether an evaluation
interval is registered, and `timingCallback` as a Bool recording whether
a callback has been set. -/
structure TimingState where
  windowStartTime : Option ℤ
  evaluationIntervalId : Bool
  pendingSignal : Option PendingSignal
  initialConfidence : Option ℝ
  initialRegime : Option RegimeData
  timingCallback : Bool

/-- Initial module state: everything null. -/
def initTimingState : TimingState :=
  { windowStartTime := none
    evaluationIntervalId := false
    pendingSignal := none
    initialConfidence := none
    initialRegime := none
    timingCallback := false }

/-- `startTimingWindow(signalData, ohlcData, regimeData)`
(signal-timing-controller.js, lines 197-242): a no-op when either
`signalData` or `ohlcData` is missing, otherwise records the pending
signal, the initial confidence, a deep copy of the regime and the start
time, and registers the evaluation interval.  `ohlcData` only has its
presence tested, so its payload type is arbitrary. -/
def startTimingWindow {α : Type} (s : TimingState) (signalData : Option SignalData)
    (ohlcData : Option α) (regimeData : Option RegimeData) (now : ℤ) : TimingState :=
  match signalData, ohlcData with
  | some sd, some _ =>
      { windowStartTime := some now
        evaluationIntervalId := true
        pendingSignal := some ⟨sd.action, sd.groupId, sd.groupName, sd.price⟩
        initialConfidence := some sd.confidence
        initialRegime := regimeData
        timingCallback := s.timingCallback }
  | _, _ => s

/-- One firing of the 20-second evaluation interval registered by
`startTimingWindow` (signal-timing-controller.js, lines 222-241).
Returns the (unchanged) state and the event passed to the timing
callback, if any.  The JS guard `!windowStartTime || !pendingSignal`
uses number truthiness, so a (pathological) zero start time also
returns early. -/
def timingEvalTick (s : TimingState) (now : ℤ) : TimingState × Option String :=
  match s.windowStartTime, s.pendingSignal with
  | some start, some _ =>
      if start = 0 then (s, none)
      else
        let elapsed := now - start
        if elapsed < MIN_DELAY_MS then (s, none)
        else if MAX_DELAY_MS ≤ elapsed then
          (s, if s.timingCallback then some "EXPIRED" else none)
        else (s, none)
  | _, _ => (s, none)

/-- `hasExpired()` (signal-timing-controller.js, lines 255-258); the
guard `!windowStartTime` uses number truthiness. -/
def hasExpired (s : TimingState) (now : ℤ) : Bool :=
  match s.windowStartTime with
  | none => false
  | some start => if start = 0 then false else decide (MAX_DELAY_MS ≤ now - start)

/-- `getElapsedTime()` (signal-timing-controller.js, lines 263-266). -/
def getElapsedTime (s : TimingState) (now : ℤ) : ℤ :=
  match s.windowStartTime with
  | none => 0
  | some start => if start = 0 then 0 else now - start

/-- `getRemainingTime()` (signal-timing-controller.js, lines 271-275). -/
def getRemainingTime (s : TimingState) (now : ℤ) : ℤ :=
  match s.windowStartTime with
  | none => MAX_DELAY_MS
  | some start =>
      if start = 0 then MAX_DELAY_MS else max 0 (MAX_DELAY_MS - (now - start))

/-- `stopTimingWindow()` (signal-timing-controller.js, lines 280-292):
unconditionally clears the interval and all window state.  The callback
registration is not touched. -/
def stopTimingWindow (s : TimingState) : TimingState :=
  { windowStartTime := none
    evaluationIntervalId := false
    pendingSignal := none
    initialConfidence := none
    initialRegime := none
    timingCallback := s.timingCallback }

/-- `isActive()` (signal-timing-controller.js, lines 297-299); this one
uses strict null comparisons. -/
def isActive (s : TimingState) : Bool :=
  s.windowStartTime.isSome && s.pendingSignal.isSome

/- ===================== Candle aggregator ===================== -/

/-- One M1 candle (content.js.backup, lines 137-143): minute-aligned open
time `t` plus OHLC prices. -/
structure Candle where
  t : ℤ
  o : ℝ
  h : ℝ
  l : ℝ
  c : ℝ

/-- The update record passed to `CandleBuffer.updateLast`
(src/unnamed/part_000, lines 36-47): every field optional. -/
structure CandleUpdate where
  h : Option ℝ
  l : Option ℝ
  c : Option ℝ

/-- The circular buffer of src/unnamed/part_000 (class CandleBuffer,
lines 11-66).  The backing array is modelled as a function from indices
to optional candles; a fresh `new Array(maxSize)` holds `undefined`
everywhere. -/
structure CandleBuffer where
  maxSize : ℕ
  buffer : ℕ → Option Candle
  head : ℕ
  tail : ℕ
  size : ℕ
  isFull : Bool

/-- `new CandleBuffer(maxSize)` (part_000, lines 12-19). -/
def CandleBuffer.init (maxSize : ℕ) : CandleBuffer :=
  { maxSize := maxSize
    buffer := fun _ => none
    head := 0
    tail := 0
    size := 0
    isFull := false }

/-- `push(candle)` (part_000, lines 21-34): write at `head`; when full,
advance `tail` (evicting the oldest entry), otherwise grow `size` and
mark full when capacity is reached; finally advance `head`. -/
def CandleBuffer.push (b : CandleBuffer) (candle : Candle) : CandleBuffer :=
  let buffer := Function.update b.buffer b.head (some candle)
  let b' :=
    if b.isFull then
      { b with buffer := buffer, tail := (b.tail + 1) % b.maxSize }
    else
      { b with buffer := buffer, size := b.size + 1,
               isFull := b.size + 1 == b.maxSize }
  { b' with head := (b'.head + 1) % b'.maxSize }

/-- `updateLast(updates)` (part_000, lines 36-47): mutate the most recent
candle in place; `h` is maxed, `l` is minned, `c` overwritten, each only
when present in the update record. -/
noncomputable def CandleBuffer.updateLast (b : CandleBuffer)
    (updates : CandleUpdate) : CandleBuffer :=
  if b.size = 0 then b
  else
    let lastIndex := if b.head = 0 then b.maxSize - 1 else b.head - 1
    match b.buffer lastIndex with
    | none => b
    | some lastCandle =>
        let c1 :=
          match updates.h with
          | none => lastCandle
          | some uh => { lastCandle with h := max lastCandle.h uh }
        let c2 :=
          match updates.l with
          | none => c1
          | some ul => { c1 with l := min c1.l ul }
        let c3 :=
          match updates.c with
          | none => c2
          | some uc => { c2 with c := uc }
        { b with buffer := Function.update b.buffer lastIndex (some c3) }

/-- `toArray()` (part_000, lines 49-59): the `size` buffer slots starting
at `tail`, in chronological order. -/
def CandleBuffer.toArray (b : CandleBuffer) : List (Option Candle) :=
  (List.range b.size).map (fun i => b.buffer ((b.tail + i) % b.maxSize))

/-- `getLastCandle()` (part_000, lines 61-65). -/
def CandleBuffer.getLastCandle (b : CandleBuffer) : Option Candle :=
  if b.size = 0 then none
  else b.buffer (if b.head = 0 then b.maxSize - 1 else b.head - 1)

/-- MAX_CANDLES (part_000, line 9). -/
def MAX_CANDLES : ℕ := 2000

/-- State mutated by `pushTick` (content.js.backup): the candle ring
buffer and the last accepted price.  UI refreshes, the warm-up flag and
the derived `ohlcM1` cache are display plumbing over the same buffer and
are not modelled separately. -/
structure AggState where
  buf : CandleBuffer
  lastPrice : Option ℝ

/-- Fresh aggregator state: an empty 2000-slot ring, no last price. -/
def initAggState : AggState :=
  { buf := CandleBuffer.init MAX_CANDLES, lastPrice := none }

/-- Minute bucket of a timestamp: `Math.floor(timestamp/60000)*60000`. -/
def minuteBucket (timestamp : ℤ) : ℤ := timestamp.fdiv 60000 * 60000

/-- `pushTick(timestamp, price)` (content.js.backup, lines 125-166).  The
guard `!price || isNaN(price)` drops a falsy price; over the reals the
only falsy price is 0 (`NaN` has no representative) — negative or
infinite prices are NOT rejected.  A tick whose minute bucket is beyond
the latest candle appends a fresh candle; otherwise the latest candle is
extended (note that a tick whose minute is EARLIER than the latest candle
also lands in the extend branch). -/
noncomputable def pushTick (timestamp : ℤ) (price : ℝ) (s : AggState) : AggState :=
  if price = 0 then s
  else
    match s.buf.getLastCandle with
    | none =>
        { buf := s.buf.push ⟨minuteBucket timestamp, price, price, price, price⟩,
          lastPrice := some price }
    | some lastCandle =>
        if lastCandle.t < minuteBucket timestamp then
          { buf := s.buf.push
              ⟨minuteBucket timestamp, price, price, price, price⟩,
            lastPrice := some price }
        else
          { buf := s.buf.updateLast ⟨some (max lastCandle.h price),
              some (min lastCandle.l price), some price⟩,
            lastPrice := some price }

/-- Feeding a whole tick sequence through `pushTick`. -/
noncomputable def runTicks (ticks : List (ℤ × ℝ)) : AggState :=
  ticks.foldl (fun s tk => pushTick tk.1 tk.2 s) initAggState

/-- Abstract list view of one aggregation step: the effect of `pushTick`
on the chronological candle list, before ring-buffer eviction. -/
noncomputable def stepCandles (cs : List Candle) (timestamp : ℤ) (price : ℝ) :
    List Candle :=
  if price = 0 then cs
  else
    let ct := minuteBucket timestamp
    match cs.getLast? with
    | none => cs ++ [⟨ct, price, price, price, price⟩]
    | some last =>
        if last.t < ct then cs ++ [⟨ct, price, price, price, price⟩]
        else cs.dropLast ++
          [{ last with h := max last.h price, l := min last.l price, c := price }]

/-- The abstract candle list built from a tick sequence. -/
noncomputable def candlesOf (ticks : List (ℤ × ℝ)) : List Candle :=
  ticks.foldl (fun cs tk => stepCandles cs tk.1 tk.2) []

/-- The accepted ticks of a sequence: those that pass the price guard. -/
noncomputable def acceptedTicks (ticks : List (ℤ × ℝ)) : List (ℤ × ℝ) :=
  ticks.filter (fun tk => tk.2 ≠ 0)

/-- The minute buckets touched by the accepted ticks, in order. -/
noncomputable def acceptedBuckets (ticks : List (ℤ × ℝ)) : List ℤ :=
  (acceptedTicks ticks).map (fun tk => minuteBucket tk.1)

/-- The accepted prices falling in bucket `b`, in arrival order. -/
noncomputable def bucketPrices (ticks : List (ℤ × ℝ)) (b : ℤ) : List ℝ :=
  ((acceptedTicks ticks).filter (fun tk => minuteBucket tk.1 = b)).map
    (fun tk => tk.2)

/-- The per-bucket candle specification: one candle per distinct bucket
touched by accepted ticks, in strictly increasing bucket order; each
candle opens at the bucket's first accepted price, closes at its last,
and its high/low bound every accepted price of the bucket. -/
noncomputable def CandleListSpec (ticks : List (ℤ × ℝ)) (cs : List Candle) : Prop :=
  List.Chain' (· < ·) (cs.map (fun c => c.t)) ∧
  (∀ b : ℤ, (∃ c ∈ cs, c.t = b) ↔ b ∈ acceptedBuckets ticks) ∧
  (∀ c ∈ cs,
    (bucketPrices ticks c.t).head? = some c.o ∧
    (bucketPrices ticks c.t).getLast? = some c.c ∧
    (∀ p ∈ bucketPrices ticks c.t, c.l ≤ p ∧ p ≤ c.h))

/-- Invariant tying a ring buffer that has not wrapped (no eviction yet)
to the plain candle list it holds. -/
def BufInv (b : CandleBuffer) (cs : List Candle) : Prop :=
  b.maxSize = MAX_CANDLES ∧
  b.tail = 0 ∧
  b.size = cs.length ∧
  cs.length ≤ MAX_CANDLES ∧
  b.head = cs.length % MAX_CANDLES ∧
  b.isFull = decide (cs.length = MAX_CANDLES) ∧
  (∀ i, i < cs.length → b.buffer i = cs.get? i)

/- ===================== Experience replay buffer ===================== -/

/-- BUFFER_SIZE (experience-replay.js, line 9). -/
def BUFFER_SIZE : ℕ := 1000

/-- BATCH_SIZE (experience-replay.js, line 10). -/
def BATCH_SIZE : ℕ := 32

/-- MIN_EXPERIENCES, the minimum buffer size before training
(experience-replay.js, line 11). -/
def MIN_EXPERIENCES : ℕ := 50

/-- One stored experience (experience-replay.js, lines 20-26). -/
structure Experience where
  state : List ℝ
  action : ℕ
  reward : ℝ
  nextState : Option (List ℝ)
  done : Bool

/-- `add(state, action, reward, nextState, done)` (experience-replay.js,
lines 19-33): append the new experience, then shift out the oldest entry
once the buffer length exceeds its capacity. -/
def ExperienceReplayBuffer.add (buffer : List Experience) (maxSize : ℕ)
    (state : List ℝ) (action : ℕ) (reward : ℝ) (nextState : Option (List ℝ))
    (done : Bool) : List Experience :=
  let buffer := buffer ++ [⟨state, action, reward, nextState, done⟩]
  if maxSize < buffer.length then buffer.tail else buffer

/-- `canTrain()` (experience-replay.js, lines 63-65). -/
def ExperienceReplayBuffer.canTrain {α : Type} (buffer : List α) : Bool :=
  decide (MIN_EXPERIENCES ≤ buffer.length)

/-- The index-collection loop of `sample` (experience-replay.js, lines
40-47): repeatedly draws an index (`Math.floor(Math.random()*length)`,
modelled as an arbitrary stream of naturals reduced mod the buffer
length, which always lies in `[0, length)` for a nonempty buffer) and
inserts it into an insertion-ordered set until `batchSize` distinct
indices are collected.  The JS `while` loop terminates only
probabilistically, so the embedding carries explicit fuel and returns
`none` when the fuel runs out. -/
def sampleIndices (len batchSize : ℕ) (draw : ℕ → ℕ) :
    ℕ → ℕ → List ℕ → Option (List ℕ)
  | 0, _, acc => if batchSize ≤ acc.length then some acc else none
  | fuel + 1, step, acc =>
      if batchSize ≤ acc.length then some acc
      else
        let idx := draw step % len
        sampleIndices len batchSize draw fuel (step + 1)
          (if idx ∈ acc then acc else acc ++ [idx])

/-- `sample(batchSize)` (experience-replay.js, lines 35-53): early empty
return when the buffer holds fewer than `batchSize` entries, otherwise
the batch of buffer entries at the collected distinct indices, in
insertion order.  Polymorphic in the stored payload, which the sampling
logic never inspects. -/
def ExperienceReplayBuffer.sample {α : Type} [Inhabited α] (buffer : List α)
    (batchSize : ℕ) (draw : ℕ → ℕ) (fuel : ℕ) : Option (List α) :=
  if buffer.length < batchSize then some []
  else
    match sampleIndices buffer.length batchSize draw fuel 0 [] with
    | none => none
    | some idxs => some (idxs.map (fun i => buffer.getD i default))

/- ===================== Publish-time soft gates (content.js.backup) ===================== -/

/-- JS `s || d` for an optional string: `undefined` and `""` are falsy. -/
def jsOrStr (o : Option String) (d : String) : String :=
  match o with
  | none => d
  | some s => if s = "" then d else s

/-- JS `arr.slice(-n)` for n ≥ 1: the last `min n length` elements. -/
def takeLast {α : Type} (n : ℕ) (l : List α) : List α := l.drop (l.length - n)

/-- Result record of `calculateADX` (part_004, line 220). -/
structure ADXResult where
  adx : ℝ
  plusDI : ℝ
  minusDI : ℝ
  dx : ℝ

/-- Result record of `calculateMACD` (part_004, line 86). -/
structure MACDResult where
  macd : ℝ
  signal : ℝ
  histogram : ℝ

/-- Result record of `calculateStochastic` (part_004, line 158). -/
structure StochResult where
  k : ℝ
  d : ℝ
  kValues : List ℝ

/-- Result record of `calculateBollingerBands` (part_004, lines 103-108). -/
structure BBResult where
  upper : ℝ
  middle : ℝ
  lower : ℝ
  percentB : ℝ

/-- The closure context captured by `passesHardGates` inside
`publishPendingSignal` (content.js.backup, lines 560-570): the regime
volatility level and the indicator values precomputed from the series. -/
structure GateContext where
  volLevel : Option String
  closes : List ℝ
  adx : Option ADXResult
  macd : Option MACDResult
  rsi : Option ℝ
  stoch : Option StochResult
  bb : Option BBResult
  atr : Option ℝ
  ema12 : Option ℝ
  ema26 : Option ℝ
  ema21 : Option ℝ

/-- One row of `configByVol` (content.js.backup, lines 575-579). -/
structure GateConfig where
  atrMin : ℝ
  atrMax : ℝ
  macdTol : ℝ
  rsiBuyMax : ℝ
  rsiSellMin : ℝ
  stochBuyMax : ℝ
  stochSellMin : ℝ
  emaTol : ℝ

/-- `configByVol[volLevel] || configByVol.MEDIUM`
(content.js.backup, lines 575-580). -/
noncomputable def configByVol (volLevel : String) : GateConfig :=
  if volLevel = "LOW" then
    ⟨1/1000, 28/1000, 6/10000, 75, 25, 90, 10, 8/100000⟩
  else if volLevel = "HIGH" then
    ⟨15/10000, 3/100, 4/10000, 70, 30, 85, 15, 12/100000⟩
  else
    ⟨15/10000, 3/100, 5/10000, 72, 28, 88, 12, 1/10000⟩

/-- `passesHardGates(action, softMode)` (content.js.backup, lines
572-663): a sequence of early-return-false alignment checks; encoded as
the negation of the disjunction of the individual failure conditions
(the checks have no side effects, so early return is equivalent). -/
noncomputable def passesHardGates (ctx : GateContext) (action : String)
    (softMode : Bool) : Bool :=
  let volLevel := jsOrStr ctx.volLevel "MEDIUM"
  let price : Option ℝ := ctx.closes.getLast?
  let cfg := configByVol volLevel
  let softCfg : GateConfig :=
    { atrMin := cfg.atrMin * (6/10)
      atrMax := cfg.atrMax * (115/100)
      macdTol := cfg.macdTol * (18/10)
      rsiBuyMax := cfg.rsiBuyMax + 4
      rsiSellMin := max 20 (cfg.rsiSellMin - 4)
      stochBuyMax := min 95 (cfg.stochBuyMax + 5)
      stochSellMin := max 5 (cfg.stochSellMin - 5)
      emaTol := cfg.emaTol * (18/10) }
  let useCfg := if softMode then softCfg else cfg
  let emaDiff : Option ℝ :=
    match ctx.ema12, ctx.ema26 with
    | some e12, some e26 =>
        if e12 ≠ 0 ∧ e26 ≠ 0 then some (e12 - e26) else none
    | _, _ => none
  -- trend alignment (allow neutral when EMAs converge), plus directional
  -- ADX agreement above the 30/35 threshold
  let trendFail : Bool :=
    match emaDiff with
    | none => false
    | some d =>
        if action = "BUY" ∧ ¬ (-useCfg.emaTol ≤ d) ∧ ¬ (|d| < useCfg.emaTol) then
          true
        else if action = "SELL" ∧ ¬ (d ≤ -useCfg.emaTol) ∧
            ¬ (|d| < useCfg.emaTol) then
          true
        else
          match ctx.adx with
          | none => false
          | some a =>
              if ((if softMode then (35:ℝ) else 30) < a.adx) ∧
                  ¬ (|d| < useCfg.emaTol) then
                if action = "BUY" ∧ ¬ (a.minusDI < a.plusDI) then true
                else if action = "SELL" ∧ a.minusDI < a.plusDI then true
                else false
              else false
  -- momentum alignment
  let macdFail : Bool :=
    match ctx.macd with
    | none => false
    | some m =>
        if action = "BUY" ∧ m.histogram < -useCfg.macdTol then true
        else if action = "SELL" ∧ useCfg.macdTol < m.histogram then true
        else false
  let rsiFail : Bool :=
    match ctx.rsi with
    | none => false
    | some r =>
        if action = "BUY" ∧ useCfg.rsiBuyMax < r then true
        else if action = "SELL" ∧ r < useCfg.rsiSellMin then true
        else false
  let stochFail : Bool :=
    match ctx.stoch with
    | none => false
    | some st =>
        if action = "BUY" ∧ useCfg.stochBuyMax < st.k then true
        else if action = "SELL" ∧ st.k < useCfg.stochSellMin then true
        else false
  -- volatility guard
  let volFail : Bool :=
    match ctx.atr with
    | none => false
    | some a =>
        if a ≠ 0 ∧ 20 ≤ ctx.closes.length then
          let avgPrice := (takeLast 20 ctx.closes).sum / 20
          let ratioVal := if 0 < avgPrice then a / avgPrice else 0
          decide (useCfg.atrMax < ratioVal ∨ ratioVal < useCfg.atrMin)
        else false
  -- pattern/context alignment: price not against mid-BB/EMA21
  let priceTol : ℝ :=
    match price with
    | some pv =>
        if pv ≠ 0 then pv * (if softMode then 1/1000 else 5/10000)
        else (if softMode then (1/1000 : ℝ) else 5/10000)
    | none => (if softMode then (1/1000 : ℝ) else 5/10000)
  let bbFail : Bool :=
    match ctx.bb with
    | none => false
    | some bbv =>
        let closeToEMA : Bool :=
          match ctx.ema21 with
          | some e21 =>
              if e21 ≠ 0 then decide (|bbv.middle - e21| ≤ priceTol) else false
          | none => false
        if closeToEMA then
          match price, ctx.ema21 with
          | some lc, some e21 =>
              if action = "BUY" ∧
                  lc < min bbv.middle (if e21 ≠ 0 then e21 else bbv.middle) then
                true
              else if action = "SELL" ∧
                  max bbv.middle (if e21 ≠ 0 then e21 else bbv.middle) < lc then
                true
              else false
          | _, _ => false
        else
          if softMode then false
          else
            match price with
            | some lc =>
                if action = "BUY" ∧ lc < bbv.middle then true
                else if action = "SELL" ∧ bbv.middle < lc then true
                else false
            | none => false
  let ema21Fail : Bool :=
    match ctx.ema21 with
    | none => false
    | some e21 =>
        if e21 ≠ 0 then
          let closeToBB : Bool :=
            match ctx.bb with
            | some bbv => decide (|e21 - bbv.middle| ≤ priceTol)
            | none => false
          if ¬ (closeToBB = true) ∧ softMode = false then
            match price with
            | some lc =>
                if action = "BUY" ∧ lc < e21 then true
                else if action = "SELL" ∧ e21 < lc then true
                else false
            | none => false
          else false
        else false
  -- regime-aware: avoid counter-trend in strong ADX
  let adxFail : Bool :=
    match ctx.adx with
    | none => false
    | some a =>
        if (25:ℝ) < a.adx then
          if action = "BUY" ∧ ¬ (a.minusDI < a.plusDI) then true
          else if action = "SELL" ∧ a.minusDI < a.plusDI then true
          else false
        else false
  !(trendFail || macdFail || rsiFail || stochFail || volFail || bbFail ||
    ema21Fail || adxFail)

/-- Modelled from the spec: the `canElevate` identifier used at
content.js.backup line 677 is declared nowhere in the sources (the spec,
section 9, flags this and prescribes the intended condition: strict gate
pass AND positive Q-advantage AND bandit weight at least 1). -/
noncomputable def canElevateIntended (gatePassed : Bool) (qAdv banditWeight : ℝ) :
    Bool :=
  gatePassed && decide (0 < qAdv) && decide (1 ≤ banditWeight)

/-- The confidence-adjustment and publish tail of `publishPendingSignal`
(content.js.backup, lines 664-700): gate score from the two gate
evaluations, rescale-and-clamp of the confidence, the sub-75 cap when
strict gates fail, then the read of the undeclared identifier
`canElevate`, modelled as an optional ambient binding — `none` reproduces
the strict-mode ReferenceError, which aborts the publish.  On success
returns the published action and final confidence. -/
noncomputable def publishAdjustedSignal (ctx : GateContext) (action : String)
    (baseConfidence qAdv banditWeight : ℝ) (canElevateVar : Option Bool) :
    Except String (String × ℝ) :=
  let gatePassed := passesHardGates ctx action false
  let gateSoftPass := passesHardGates ctx action true
  let gateScore : ℝ :=
    if gatePassed then 1 else if gateSoftPass then 65/100 else 45/100
  let adjusted0 :=
    max 40 (min 95 (jsRound (baseConfidence * (6/10 + 4/10 * gateScore))))
  let adjusted1 := if gatePassed then adjusted0 else min adjusted0 74
  match canElevateVar with
  | none => Except.error "ReferenceError: canElevate is not defined"
  | some ce =>
      let adjusted2 :=
        if ce then
          let edgeBoost :=
            min 20 (jsRound (qAdv * 25) + jsRound ((banditWeight - 1) * 15))
          max adjusted1 (min 95 (72 + edgeBoost))
        else min adjusted1 74
      Except.ok (action, adjusted2)

/- ===================== Technical indicator library ===================== -/

/-- JS `Math.max(...arr)` for the nonempty arrays the library feeds it
(on `[]` JS gives -Infinity, which has no representative here). -/
def jsMax (l : List ℝ) : ℝ :=
  match l with
  | [] => 0
  | h :: t => t.foldl max h

/-- JS `Math.min(...arr)`, same conventions as `jsMax`. -/
def jsMin (l : List ℝ) : ℝ :=
  match l with
  | [] => 0
  | h :: t => t.foldl min h

/-- `calculateSMA(data, period)` (part_004, lines 22-26). -/
noncomputable def calculateSMA (data : List ℝ) (period : ℕ) : Option ℝ :=
  if data.length < period then none
  else some ((takeLast period data).sum / period)

/-- `calculateEMA(data, period)` (part_004, lines 28-39): seed with the
mean of the first `period` samples, then fold the remaining samples with
smoothing `2/(period+1)`. -/
noncomputable def calculateEMA (data : List ℝ) (period : ℕ) : Option ℝ :=
  if data.length < period then none
  else
    let multiplier : ℝ := 2 / (period + 1)
    some ((data.drop period).foldl
      (fun ema x => (x - ema) * multiplier + ema)
      ((data.take period).sum / period))

/-- `calculateRSI(closes, period)` (part_004, lines 41-60).  The JS loop
over `i = closes.length - period .. closes.length - 1` accumulates the
consecutive differences of the trailing `period+1` closes. -/
noncomputable def calculateRSI (closes : List ℝ) (period : ℕ) : Option ℝ :=
  if closes.length < period + 1 then none
  else
    let window := takeLast (period + 1) closes
    let changes := List.zipWith (fun prev cur => cur - prev) window window.tail
    let gains := (changes.map (fun ch => if 0 < ch then ch else 0)).sum
    let losses := (changes.map (fun ch => if 0 < ch then 0 else |ch|)).sum
    let avgGain := gains / period
    let avgLoss := losses / period
    if avgLoss = 0 then some 100
    else some (100 - 100 / (1 + avgGain / avgLoss))

/-- `calculateMACD(closes, fast, slow, signalPeriod)` (part_004, lines
62-87).  The JS truthiness guards `!fastEMA || !slowEMA`, `if (f && s)`
and `!signalLine` also reject a zero EMA value. -/
noncomputable def calculateMACD (closes : List ℝ) (fastPeriod slowPeriod signalPeriod : ℕ) :
    Option MACDResult :=
  if closes.length < slowPeriod + signalPeriod then none
  else
    match calculateEMA closes fastPeriod, calculateEMA closes slowPeriod with
    | some fastEMA, some slowEMA =>
        if fastEMA ≠ 0 ∧ slowEMA ≠ 0 then
          let macdLine := fastEMA - slowEMA
          let macdHistory :=
            (List.range' slowPeriod (closes.length - slowPeriod)).filterMap
              (fun i =>
                match calculateEMA (closes.take (i + 1)) fastPeriod,
                    calculateEMA (closes.take (i + 1)) slowPeriod with
                | some f, some s =>
                    if f ≠ 0 ∧ s ≠ 0 then some (f - s) else none
                | _, _ => none)
          if macdHistory.length < signalPeriod then none
          else
            match calculateEMA macdHistory signalPeriod with
            | some signalLine =>
                if signalLine ≠ 0 then
                  some ⟨macdLine, signalLine, macdLine - signalLine⟩
                else none
            | none => none
        else none
    | _, _ => none

/-- `calculateBollingerBands(closes, period, stdDev)` (part_004, lines
89-109). -/
noncomputable def calculateBollingerBands (closes : List ℝ) (period : ℕ)
    (stdDev : ℝ) : Option BBResult :=
  if closes.length < period then none
  else
    let slice := takeLast period closes
    let sma := slice.sum / period
    let variance := (slice.map (fun val => ((val - sma) ^ 2 : ℝ))).sum / period
    let std := Real.sqrt variance
    let currentPrice := closes.getLastD 0
    let bandwidth := 2 * std * stdDev
    let percentB :=
      if 1/10000 < bandwidth then
        (currentPrice - (sma - std * stdDev)) / bandwidth
      else 1/2
    some ⟨sma + std * stdDev, sma, sma - std * stdDev, percentB⟩

/-- The true-range list built by `calculateATR` and `calculateADX`
(part_004, lines 114-122 and 165-173): one entry per consecutive pair of
equal-length OHLC arrays. -/
noncomputable def trueRanges (highs lows closes : List ℝ) : List ℝ :=
  List.zipWith3 (fun h l pc => max (h - l) (max |h - pc| |l - pc|))
    highs.tail lows.tail closes

/-- `calculateATR(highs, lows, closes, period)` (part_004, lines 111-128). -/
noncomputable def calculateATR (highs lows closes : List ℝ) (period : ℕ) :
    Option ℝ :=
  if highs.length < period + 1 then none
  else
    let trs := trueRanges highs lows closes
    if trs.length < period then none
    else some ((takeLast period trs).sum / period)

/-- `calculateStochastic(highs, lows, closes, kPeriod, dPeriod)`
(part_004, lines 130-159). -/
noncomputable def calculateStochastic (highs lows closes : List ℝ)
    (kPeriod dPeriod : ℕ) : Option StochResult :=
  if highs.length < kPeriod + dPeriod then none
  else
    let kValues :=
      (List.range' (kPeriod - 1) (highs.length - (kPeriod - 1))).map
        (fun i =>
          let periodHighs := (highs.drop (i + 1 - kPeriod)).take kPeriod
          let periodLows := (lows.drop (i + 1 - kPeriod)).take kPeriod
          let highestHigh := jsMax periodHighs
          let lowestLow := jsMin periodLows
          let currentClose := closes.getD i 0
          if highestHigh = lowestLow then 50
          else (currentClose - lowestLow) / (highestHigh - lowestLow) * 100)
    if kValues.length < dPeriod then none
    else
      some ⟨kValues.getLastD 0, (takeLast dPeriod kValues).sum / dPeriod,
        kValues⟩

/-- The Wilder smoothing used by `calculateADX` (part_004, lines
197-206): seed with the mean of the first `period` entries, then fold
the rest with `(acc*(period-1) + d)/period`. -/
noncomputable def wilderSmooth (l : List ℝ) (period : ℕ) : ℝ :=
  (l.drop period).foldl
    (fun acc d => (acc * ((period : ℝ) - 1) + d) / period)
    ((l.take period).sum / period)

/-- The plus-DM and minus-DM pairs of `calculateADX` (part_004, lines 176-193). -/
noncomputable def dmPairs (highs lows : List ℝ) : List (ℝ × ℝ) :=
  List.zipWith
    (fun hp lp =>
      let upMove := hp.2 - hp.1
      let downMove := lp.1 - lp.2
      if downMove < upMove ∧ 0 < upMove then (upMove, 0)
      else if upMove < downMove ∧ 0 < downMove then (0, downMove)
      else (0, 0))
    (highs.zip highs.tail) (lows.zip lows.tail)

/-- `calculateADX(highs, lows, closes, period)` (part_004, lines
161-221); note the source approximates ADX by the single-period DX. -/
noncomputable def calculateADX (highs lows closes : List ℝ) (period : ℕ) :
    Option ADXResult :=
  if highs.length < period * 2 then none
  else
    let trs := trueRanges highs lows closes
    let plusDMs := (dmPairs highs lows).map (fun p => p.1)
    let minusDMs := (dmPairs highs lows).map (fun p => p.2)
    if trs.length < period ∨ plusDMs.length < period ∨
        minusDMs.length < period then none
    else
      let atr := wilderSmooth trs period
      let plusDM := wilderSmooth plusDMs period
      let minusDM := wilderSmooth minusDMs period
      let plusDI := if 0 < atr then plusDM / atr * 100 else 0
      let minusDI := if 0 < atr then minusDM / atr * 100 else 0
      let diSum := plusDI + minusDI
      let dx := if 0 < diSum then |plusDI - minusDI| / diSum * 100 else 0
      some ⟨dx, plusDI, minusDI, dx⟩

/-- `calculateCCI(highs, lows, closes, period)` (part_004, lines
223-248); a zero mean deviation returns the NUMBER 0, not null. -/
noncomputable def calculateCCI (highs lows closes : List ℝ) (period : ℕ) :
    Option ℝ :=
  if highs.length < period then none
  else
    let typicalPrices := List.zipWith3 (fun h l c => (h + l + c) / 3)
      highs lows closes
    if typicalPrices.length < period then none
    else
      let smaSlice := takeLast period typicalPrices
      let sma := smaSlice.sum / (period : ℝ)
      let meanDeviation := (smaSlice.map (fun tp => |tp - sma|)).sum / (period : ℝ)
      if meanDeviation = 0 then some 0
      else
        let currentTP := typicalPrices.getLastD 0
        some ((currentTP - sma) / ((15/1000) * meanDeviation))

/-- `calculateWilliamsR(highs, lows, closes, period)` (part_004, lines
250-263): the guard checks only `highs.length`; a completely flat window
(highest high = lowest low) short-circuits to -50 before any division. -/
noncomputable def calculateWilliamsR (highs lows closes : List ℝ)
    (period : ℕ) : Option ℝ :=
  if highs.length < period then none
  else
    let highestHigh := jsMax (takeLast period highs)
    let lowestLow := jsMin (takeLast period lows)
    let currentClose := closes.getLastD 0
    if highestHigh = lowestLow then some (-50)
    else some ((highestHigh - currentClose) / (highestHigh - lowestLow) * (-100))

/-- `calculateAwesomeOscillator(highs, lows)` (part_004, lines 265-282). -/
noncomputable def calculateAwesomeOscillator (highs lows : List ℝ) :
    Option ℝ :=
  if highs.length < 34 ∨ lows.length < 34 then none
  else
    let medianPrices := List.zipWith (fun h l => (h + l) / 2) highs lows
    match calculateSMA medianPrices 5, calculateSMA medianPrices 34 with
    | some sma5, some sma34 =>
        if sma5 ≠ 0 ∧ sma34 ≠ 0 then some (sma5 - sma34) else none
    | _, _ => none

/-- Result of `detectCandlestickPatterns` (part_004, line 368). -/
structure PatternResult where
  patterns : List String
  bias : Option String
  score : ℝ

/-- MIN_CANDLE_RANGE (part_004, line 20). -/
noncomputable def MIN_CANDLE_RANGE : ℝ := 1/100000

/-- `detectCandlestickPatterns(candles)` (part_004, lines 288-369). -/
noncomputable def detectCandlestickPatterns (candles : List Candle) :
    PatternResult :=
  if candles.length < 2 then ⟨[], none, 0⟩
  else
    let recent := takeLast 3 candles
    let last := recent.getLastD ⟨0, 0, 0, 0, 0⟩
    let prev := recent.getD (recent.length - 2) ⟨0, 0, 0, 0, 0⟩
    let lastBody := |last.c - last.o|
    let lastRange := max MIN_CANDLE_RANGE (last.h - last.l)
    let dojiPart : List String :=
      if lastBody / lastRange < 1/10 then ["DOJI"] else []
    let upperWick := last.h - max last.o last.c
    let lowerWick := min last.o last.c - last.l
    let hammerPart : List String × ℝ :=
      if lastBody / lastRange < 3/10 ∧ upperWick * 2 < lowerWick ∧
          lastBody * (15/10) < lowerWick then (["HAMMER"], 1)
      else if lastBody / lastRange < 3/10 ∧ lowerWick * 2 < upperWick ∧
          lastBody * (15/10) < upperWick then (["SHOOTING_STAR"], -1)
      else ([], 0)
    let engulfPart : List String × ℝ :=
      if last.o < last.c ∧ prev.c < prev.o ∧ prev.o ≤ last.c ∧
          last.o ≤ prev.c then (["BULLISH_ENGULFING"], 2)
      else if last.c < last.o ∧ prev.o < prev.c ∧ prev.c ≤ last.o ∧
          last.c ≤ prev.o then (["BEARISH_ENGULFING"], -2)
      else ([], 0)
    let starPart : List String × ℝ :=
      if 3 ≤ recent.length then
        let c1 := recent.getD (recent.length - 3) ⟨0, 0, 0, 0, 0⟩
        let c2 := recent.getD (recent.length - 2) ⟨0, 0, 0, 0, 0⟩
        let c3 := last
        let c2Body := |c2.c - c2.o|
        let c2Range := max MIN_CANDLE_RANGE (c2.h - c2.l)
        if (c2.c < c1.c ∧ c2.o < c1.c) ∧ c2Body / c2Range < 3/10 ∧
            c1.o < c3.c then (["MORNING_STAR"], 2)
        else if (c1.c < c2.c ∧ c1.c < c2.o) ∧ c2Body / c2Range < 3/10 ∧
            c3.c < c1.o then (["EVENING_STAR"], -2)
        else ([], 0)
      else ([], 0)
    let patterns := dojiPart ++ hammerPart.1 ++ engulfPart.1 ++ starPart.1
    let biasScore := hammerPart.2 + engulfPart.2 + starPart.2
    let bias : Option String :=
      if 0 < biasScore then some "BULLISH"
      else if biasScore < 0 then some "BEARISH"
      else none
    let baseScore := min 1 ((patterns.length : ℝ) * (25/100))
    let bodyQuality := max 0 (1 - lastBody / lastRange)
    let score := min 1 (baseScore * (6/10) + bodyQuality * (4/10))
    ⟨patterns, bias, score⟩

-- === encodeState (rl-integration.js, lines 116-247) ===

/-- State slot [0], market-regime volatility level (rl-integration.js,
lines 130-135); the JS guard `regimeData && regimeData.volatility` is
the two option matches. -/
noncomputable def enc0 (regimeData : Option RegimeData) (s : Fin 16 → ℝ) :
    Fin 16 → ℝ :=
  match regimeData with
  | some rd =>
      match rd.volatility with
      | some v =>
          Function.update s 0
            (if v.level = "LOW" then 1/4
             else if v.level = "MEDIUM" then 1/2 else 3/4)
      | none => s
  | none => s

/-- State slot [1], normalized ATR (rl-integration.js, lines 137-146);
`atr && avgPrice > 0` requires a present, nonzero ATR and a positive
average price; the `lastRiskSnapshot` side store is not part of the
returned state. -/
noncomputable def enc1 (highs lows closes : List ℝ) (avgPrice : ℝ)
    (s : Fin 16 → ℝ) : Fin 16 → ℝ :=
  match calculateATR highs lows closes 14 with
  | some atr =>
      if atr ≠ 0 ∧ 0 < avgPrice then
        Function.update s 1 (min 1 (atr / avgPrice * 50))
      else s
  | none => s

/-- State slot [2], EMA separation (rl-integration.js, lines 148-154). -/
noncomputable def enc2 (closes : List ℝ) (avgPrice : ℝ) (s : Fin 16 → ℝ) :
    Fin 16 → ℝ :=
  match calculateEMA closes 12, calculateEMA closes 26 with
  | some ema12, some ema26 =>
      if ema12 ≠ 0 ∧ ema26 ≠ 0 then
        Function.update s 2 (min 1 (|ema12 - ema26| / avgPrice * 100))
      else s
  | _, _ => s

/-- State slot [3], trend direction (rl-integration.js, lines 156-160). -/
noncomputable def enc3 (regimeData : Option RegimeData) (s : Fin 16 → ℝ) :
    Fin 16 → ℝ :=
  match regimeData with
  | some rd =>
      match rd.trend with
      | some tr =>
          Function.update s 3
            (if tr.direction = "BULLISH" then 1
             else if tr.direction = "BEARISH" then 0 else 1/2)
      | none => s
  | none => s

/-- State slot [4], RSI (rl-integration.js, lines 162-166); the guard is
`rsi !== null`, so a zero RSI is encoded. -/
noncomputable def enc4 (closes : List ℝ) (s : Fin 16 → ℝ) : Fin 16 → ℝ :=
  match calculateRSI closes 14 with
  | some rsi => Function.update s 4 (rsi / 100)
  | none => s

/-- State slot [5], MACD histogram (rl-integration.js, lines 168-172). -/
noncomputable def enc5 (closes : List ℝ) (s : Fin 16 → ℝ) : Fin 16 → ℝ :=
  match calculateMACD closes 12 26 9 with
  | some macd =>
      Function.update s 5 (1/2 + max (-(1/2)) (min (1/2) (macd.histogram * 1000)))
  | none => s

/-- State slot [6], ADX trend strength (rl-integration.js, lines 174-178). -/
noncomputable def enc6 (highs lows closes : List ℝ) (s : Fin 16 → ℝ) :
    Fin 16 → ℝ :=
  match calculateADX highs lows closes 14 with
  | some adx => Function.update s 6 (min 1 (adx.adx / 100))
  | none => s

/-- State slot [7], Stochastic %K (rl-integration.js, lines 180-184). -/
noncomputable def enc7 (highs lows closes : List ℝ) (s : Fin 16 → ℝ) :
    Fin 16 → ℝ :=
  match calculateStochastic highs lows closes 14 3 with
  | some stoch => Function.update s 7 (stoch.k / 100)
  | none => s

/-- State slot [8], time of day (rl-integration.js, lines 186-190); the
wall-clock hour and minute enter as parameters. -/
noncomputable def enc8 (hour minute : ℕ) (s : Fin 16 → ℝ) : Fin 16 → ℝ :=
  Function.update s 8 (((hour * 60 + minute : ℕ) : ℝ) / (24 * 60))

/-- State slot [9], regime stability (rl-integration.js, lines 192-194);
`getRegimeStability()` enters as the `stability` parameter. -/
noncomputable def enc9 (stability : ℝ) (s : Fin 16 → ℝ) : Fin 16 → ℝ :=
  Function.update s 9 (stability / 100)

/-- State slot [10], session win rate (rl-integration.js, lines 196-198). -/
noncomputable def enc10 (sessionWins sessionLosses : ℕ) (s : Fin 16 → ℝ) :
    Fin 16 → ℝ :=
  Function.update s 10
    (if 0 < sessionWins + sessionLosses then
      (sessionWins : ℝ) / ((sessionWins : ℝ) + (sessionLosses : ℝ))
     else 1/2)

/-- State slot [11], streak (rl-integration.js, line 201): written raw,
with no clamp. -/
noncomputable def enc11 (currentStreak : ℤ) (s : Fin 16 → ℝ) : Fin 16 → ℝ :=
  Function.update s 11 (1/2 + (currentStreak : ℝ) / 20)

/-- State slot [12], market-conditions score (rl-integration.js, lines
203-215): reset to 0.5, then — only when regime data is present —
adjusted by stability, trend strength and volatility, and clamped. -/
noncomputable def enc12 (regimeData : Option RegimeData) (stability : ℝ)
    (s : Fin 16 → ℝ) : Fin 16 → ℝ :=
  let s := Function.update s 12 (1/2)
  match regimeData with
  | none => s
  | some rd =>
      let v := s 12 + (stability - 50) / 200
      let v := v +
        (match rd.trend with
         | some tr => if tr.strength = "STRONG" then 15/100 else 0
         | none => 0)
      let v := v -
        (match rd.volatility with
         | some vol => if vol.level = "HIGH" then 1/10 else 0
         | none => 0)
      Function.update s 12 (max 0 (min 1 v))

/-- State slot [13], price versus EMA21 (rl-integration.js, lines
217-221); `ema21 && price` rejects zero values. -/
noncomputable def enc13 (closes : List ℝ) (s : Fin 16 → ℝ) : Fin 16 → ℝ :=
  match calculateEMA closes 21 with
  | some ema21 =>
      if ema21 ≠ 0 ∧ closes.getLastD 0 ≠ 0 then
        Function.update s 13 (if ema21 < closes.getLastD 0 then 1 else 0)
      else s
  | none => s

/-- State slot [14], Bollinger %B (rl-integration.js, lines 223-227):
written raw, with no clamp. -/
noncomputable def enc14 (closes : List ℝ) (s : Fin 16 → ℝ) : Fin 16 → ℝ :=
  match calculateBollingerBands closes 20 2 with
  | some bb => Function.update s 14 bb.percentB
  | none => s

/-- State slot [15], CCI (rl-integration.js, lines 229-234); the guard
is `cci !== null`, so a zero CCI is encoded. -/
noncomputable def enc15 (highs lows closes : List ℝ) (s : Fin 16 → ℝ) :
    Fin 16 → ℝ :=
  match calculateCCI highs lows closes 20 with
  | some cci => Function.update s 15 (max 0 (min 1 ((cci + 200) / 400)))
  | none => s

/-- Candlestick-pattern blend into slots [12] and [15] (rl-integration.js,
lines 236-243); the guard `patternSnapshot && patternSnapshot.score`
rejects a zero score. -/
noncomputable def encPat (ohlcData : List Candle) (s : Fin 16 → ℝ) :
    Fin 16 → ℝ :=
  let pat := detectCandlestickPatterns (takeLast 3 ohlcData)
  if pat.score ≠ 0 then
    let patternBias :=
      match pat.bias with
      | some b => if b = "BULLISH" then 5/100
                  else if b = "BEARISH" then -(5/100) else 0
      | none => 0
    let s := Function.update s 12 (max 0 (min 1 (s 12 + patternBias)))
    Function.update s 15 (max 0 (min 1 (s 15 * (7/10) + pat.score * (3/10))))
  else s

/-- `encodeState(ohlcData, regimeData)` (rl-integration.js, lines
116-247): all sixteen slots start at 0.5, fewer than 50 candles return
that default, and otherwise the slot writes run in source order.  The
ambient reads (`new Date()` UTC time, `getRegimeStability()`, the
session win/loss/streak counters) enter as parameters. -/
noncomputable def encodeState (ohlcData : List Candle)
    (regimeData : Option RegimeData) (hour minute : ℕ) (stability : ℝ)
    (sessionWins sessionLosses : ℕ) (currentStreak : ℤ) : Fin 16 → ℝ :=
  if ohlcData.length < 50 then fun _ => 1/2
  else
    let closes := ohlcData.map (fun c => c.c)
    let highs := ohlcData.map (fun c => c.h)
    let lows := ohlcData.map (fun c => c.l)
    let avgPrice := (takeLast 20 closes).sum / 20
    encPat ohlcData
      (enc15 highs lows closes
        (enc14 closes
          (enc13 closes
            (enc12 regimeData stability
              (enc11 currentStreak
                (enc10 sessionWins sessionLosses
                  (enc9 stability
                    (enc8 hour minute
                      (enc7 highs lows closes
                        (enc6 highs lows closes
                          (enc5 closes
                            (enc4 closes
                              (enc3 regimeData
                                (enc2 closes avgPrice
                                  (enc1 highs lows closes avgPrice
                                    (enc0 regimeData
                                      (fun _ => 1/2)))))))))))))))))

-- === slot-range preservation for encodeState ===

/-- All state slots except [11] (streak) and [14] (%B) lie in [0, 1]. -/
def SlotsBounded (s : Fin 16 → ℝ) : Prop :=
  ∀ i : Fin 16, i ≠ 11 → i ≠ 14 → 0 ≤ s i ∧ s i ≤ 1

/-- A flat candle at price `v` (used by the range counterexample). -/
def cexCandle (v : ℝ) : Candle := ⟨0, v, v, v, v⟩

/-- Twenty trailing closes whose Bollinger window has mean 10 and
standard deviation exactly 1 while the last close is 13. -/
def cexVals : List ℝ :=
  [12, 8, 9, 9, 9, 10, 10, 10, 10, 10, 10, 10, 10, 10, 10, 10, 10, 10, 10, 13]

/-- Fifty well-formed candles driving `encodeState` out of [0, 1]. -/
def cexOhlc : List Candle :=
  List.replicate 30 (cexCandle 10) ++ cexVals.map cexCandle

/- ===================== Theorems ===================== -/

/-- The epsilon component written by `calculateReward`: the floor test is
performed before the multiplication, on the epsilon the call started with. -/
theorem calculateReward_epsilon (s : RLState) (result : String)
    (conf : Option ℝ) (mc : Option MarketConditions) :
    ((calculateReward s result conf mc).2).epsilon =
      (if EPSILON_MIN < s.epsilon then
        s.epsilon *
          (if 100 < s.totalExperiences + 1 then EPSILON_DECAY_FAST else EPSILON_DECAY)
      else s.epsilon) := by
  by_cases hW : result = "WIN" <;> by_cases hL : result = "LOSS" <;>
    simp [calculateReward, hW, hL] <;> split_ifs <;> rfl

/-- `calculateReward` increments the experience counter by exactly one. -/
theorem calculateReward_totalExperiences (s : RLState) (result : String)
    (conf : Option ℝ) (mc : Option MarketConditions) :
    ((calculateReward s result conf mc).2).totalExperiences =
      s.totalExperiences + 1 := by
  by_cases hW : result = "WIN" <;> by_cases hL : result = "LOSS" <;>
    simp [calculateReward, hW, hL] <;> split_ifs <;> rfl

/-- C6: every bandit-weight update stores
`clamp(weight + (win ? 0.05 + (conf-60)/500 : -0.05 - (conf-60)/400), 0.5, 2.0)`
for the group used, and consequently after any sequence of updates every
group's effective weight stays inside `[0.5, 2.0]`. -/
theorem updateBanditWeight_clamped_and_bounded :
    (∀ (w : String → Option ℝ) (groupId result : String) (conf : ℝ),
      groupId ≠ "" →
      updateBanditWeight w groupId result conf groupId =
        some (min 2 (max (1/2) (jsOrNum (w groupId) 1 +
          (if result = "WIN" then 1/20 + (conf - 60) / 500
           else -(1/20) - (conf - 60) / 400))))) ∧
    (∀ (events : List BanditEvent) (groupId : String),
      1/2 ≤ getBanditWeight (runBanditUpdates events) groupId ∧
        getBanditWeight (runBanditUpdates events) groupId ≤ 2) := by
  constructor
  · intro w groupId result conf hne
    simp [updateBanditWeight, hne, Function.update_same]
  · intro events groupId
    -- invariant: every stored weight lies in [1/2, 2]
    have inv : ∀ (evs : List BanditEvent) (m : String → Option ℝ),
        (∀ g v, m g = some v → 1/2 ≤ v ∧ v ≤ 2) →
        ∀ g v,
          (evs.foldl
            (fun m e => updateBanditWeight m e.groupId e.result e.confidence) m) g
            = some v → 1/2 ≤ v ∧ v ≤ 2 := by
      intro evs
      induction evs with
      | nil => intro m hm g v h; exact hm g v h
      | cons e rest ih =>
        intro m hm g v h
        rw [List.foldl_cons] at h
        refine ih _ ?_ g v h
        intro g' v' h'
        by_cases hge : e.groupId = ""
        · rw [updateBanditWeight, if_pos hge] at h'
          exact hm g' v' h'
        · rw [updateBanditWeight, if_neg hge] at h'
          by_cases hgg : g' = e.groupId
          · subst hgg
            rw [Function.update_same] at h'
            have hv : v' = min 2 (max (1/2)
                (jsOrNum (m e.groupId) 1 +
                  (if e.result = "WIN" then 1/20 + (e.confidence - 60) / 500
                   else -(1/20) - (e.confidence - 60) / 400))) := by
              exact (Option.some.injEq _ _ ▸ h').symm
            constructor
            · rw [hv]
              exact le_min (by norm_num) (le_max_left _ _)
            · rw [hv]
              exact min_le_left _ _
          · rw [Function.update_noteq hgg] at h'
            exact hm g' v' h'
    have hbase : ∀ g v, (fun _ : String => (none : Option ℝ)) g = some v →
        1/2 ≤ v ∧ v ≤ 2 := by
      intro g v h
      simp at h
    by_cases hg : groupId = ""
    · rw [getBanditWeight, if_pos hg]
      norm_num
    · rw [getBanditWeight, if_neg hg]
      rcases hmg : runBanditUpdates events groupId with _ | v
      · rw [jsOrNum]
        norm_num
      · have hb := inv events _ hbase groupId v hmg
        rw [jsOrNum]
        have hvne : ¬ v = 0 := by
          intro h0
          rw [h0] at hb
          linarith [hb.1]
        rw [if_neg hvne]
        exact hb

/-- Witness for `updateBanditWeight_clamped_and_bounded`: one concrete WIN
update on an unseen group stores `clamp(1 + 0.05 + 10/500, 0.5, 2) = 1.07`. -/
theorem updateBanditWeight_clamped_witness :
    updateBanditWeight (fun _ => none) "g" "WIN" 70 "g" = some (107/100) := by
  have h := updateBanditWeight_clamped_and_bounded.1 (fun _ => none) "g" "WIN" 70
    (by decide)
  rw [h]
  norm_num [jsOrNum, min_def, max_def]

/-- C3 (amended): `calculateReward` gives WIN a +10 base plus
`(confidence-60)/10` plus a flat +5 when confidence ≥ 85; a LOSS gets a
-5 base, then -10 when confidence ≥ 85 OR ELSE -5 when confidence ≥ 75
(the two are mutually exclusive, an `else if` in the source), plus a
stacking -3 when confidence ≥ 80.  Stated with no market-conditions
argument and no risk snapshot, which the claim does not cover. -/
theorem calculateReward_confidence_shaping :
    ∀ (s : RLState) (conf : ℝ), s.lastRiskSnapshot = none →
      (calculateReward s "WIN" (some conf) none).1 =
        10 + (conf - 60) / 10 + (if 85 ≤ conf then 5 else 0) ∧
      (calculateReward s "LOSS" (some conf) none).1 =
        -5 + (if 85 ≤ conf then -10 else if 75 ≤ conf then -5 else 0) +
          (if 80 ≤ conf then -3 else 0) := by
  intro s conf hrisk
  have hLW : ¬ ("LOSS" : String) = "WIN" := by decide
  have hWL : ¬ ("WIN" : String) = "LOSS" := by decide
  constructor
  · simp [calculateReward, hrisk, hWL]
    split_ifs <;> ring
  · simp [calculateReward, hrisk, hLW]
    split_ifs <;> ring

/-- Witness for `calculateReward_confidence_shaping` at confidence 90:
a WIN yields 10 + 3 + 5 = 18, a LOSS yields -5 - 10 - 3 = -18. -/
theorem calculateReward_confidence_shaping_witness :
    (calculateReward initRLState "WIN" (some 90) none).1 = 18 ∧
      (calculateReward initRLState "LOSS" (some 90) none).1 = -18 := by
  have h := calculateReward_confidence_shaping initRLState 90 rfl
  constructor
  · rw [h.1]
    norm_num
  · rw [h.2]
    norm_num

/-- C3 counterexample: a confidence-90 loss is rewarded -18
(-5 base, -10 for ≥ 85, -3 for ≥ 80), not the -23 that would result if
the -10 and -5 penalties stacked as the claim states. -/
theorem calculateReward_loss90_counterexample :
    (calculateReward initRLState "LOSS" (some 90) none).1 = -18 ∧
      (calculateReward initRLState "LOSS" (some 90) none).1 ≠ -5 - 10 - 5 - 3 := by
  have : (calculateReward initRLState "LOSS" (some 90) none).1 = -18 := by
    norm_num [calculateReward, initRLState, show ¬ ("LOSS" : String) = "WIN" by decide]
  refine ⟨this, ?_⟩
  rw [this]
  norm_num

theorem epsForm_pos (n : ℕ) : 0 < epsForm n := by
  unfold epsForm EPSILON_DECAY EPSILON_DECAY_FAST
  positivity

theorem epsForm_succ (n : ℕ) :
    epsForm (n + 1) = epsForm n *
      (if 100 < n + 1 then EPSILON_DECAY_FAST else EPSILON_DECAY) := by
  by_cases h : 100 < n + 1
  · rw [if_pos h]
    unfold epsForm
    rw [min_eq_right (by omega : (100:ℕ) ≤ n + 1), min_eq_right (by omega : (100:ℕ) ≤ n)]
    rw [show n + 1 - 100 = (n - 100) + 1 by omega, pow_succ]
    ring
  · rw [if_neg h]
    unfold epsForm
    rw [min_eq_left (by omega : n + 1 ≤ 100), min_eq_left (by omega : n ≤ 100)]
    rw [show n + 1 - 100 = 0 by omega, show n - 100 = 0 by omega, pow_succ]
    ring

theorem epsForm_anti : Antitone epsForm := by
  apply antitone_nat_of_succ_le
  intro n
  rw [epsForm_succ]
  have h1 : (if 100 < n + 1 then EPSILON_DECAY_FAST else EPSILON_DECAY) ≤ 1 := by
    split_ifs <;> norm_num [EPSILON_DECAY_FAST, EPSILON_DECAY]
  have h2 : (0:ℝ) ≤ (if 100 < n + 1 then EPSILON_DECAY_FAST else EPSILON_DECAY) := by
    split_ifs <;> norm_num [EPSILON_DECAY_FAST, EPSILON_DECAY]
  nlinarith [epsForm_pos n]

theorem runOutcomes_replicate_succ (n : ℕ) :
    runOutcomes (List.replicate (n + 1) lossEvent) =
      (calculateReward (runOutcomes (List.replicate n lossEvent)) "LOSS" none none).2 := by
  unfold runOutcomes
  rw [List.replicate_succ', List.foldl_append]
  rfl

theorem runOutcomes_replicate_totalExp (n : ℕ) :
    (runOutcomes (List.replicate n lossEvent)).totalExperiences = n := by
  induction n with
  | zero => rfl
  | succ n ih =>
    rw [runOutcomes_replicate_succ, calculateReward_totalExperiences, ih]

theorem runOutcomes_replicate_eps : ∀ n ≤ 1216,
    (runOutcomes (List.replicate n lossEvent)).epsilon = epsForm n := by
  intro n
  induction n with
  | zero =>
    intro _
    show initRLState.epsilon = epsForm 0
    norm_num [initRLState, epsForm, EPSILON_DECAY, EPSILON_DECAY_FAST]
  | succ n ih =>
    intro h
    have ihe := ih (by omega)
    rw [runOutcomes_replicate_succ, calculateReward_epsilon, ihe,
      runOutcomes_replicate_totalExp]
    have habove : EPSILON_MIN < epsForm n := by
      have h1 : epsForm 1215 ≤ epsForm n := epsForm_anti (by omega : n ≤ 1215)
      have h2 : EPSILON_MIN < epsForm 1215 := by
        unfold epsForm EPSILON_MIN EPSILON_DECAY EPSILON_DECAY_FAST
        norm_num
      linarith
    rw [if_pos habove, epsForm_succ]

/-- C4 (amended): every outcome event multiplies epsilon by a factor
strictly below 1 exactly when epsilon is still above the floor (fast
factor 0.997 once total experiences exceed 100, slow factor 0.9995
before), so epsilon never increases across outcome events; but since the
floor test happens before the multiplication, epsilon can end strictly
below the 0.01 floor — its true lower bound along every run from the
initial state is 0.01 * 0.997 = 0.00997. -/
theorem epsilon_monotone_and_soft_floor :
    (∀ (s : RLState) (result : String) (conf : Option ℝ)
        (mc : Option MarketConditions),
      ((calculateReward s result conf mc).2).epsilon =
        (if EPSILON_MIN < s.epsilon then
          s.epsilon *
            (if 100 < s.totalExperiences + 1 then EPSILON_DECAY_FAST
             else EPSILON_DECAY)
        else s.epsilon)) ∧
    (∀ (s : RLState) (result : String) (conf : Option ℝ)
        (mc : Option MarketConditions),
      ((calculateReward s result conf mc).2).epsilon ≤ s.epsilon) ∧
    (∀ events : List OutcomeEvent,
      997/100000 ≤ (runOutcomes events).epsilon) := by
  refine ⟨calculateReward_epsilon, ?_, ?_⟩
  · intro s result conf mc
    rw [calculateReward_epsilon]
    split_ifs with h1 h2
    · exact mul_le_of_le_one_right
        (le_of_lt (lt_trans (by norm_num [EPSILON_MIN]) h1))
        (by norm_num [EPSILON_DECAY_FAST])
    · exact mul_le_of_le_one_right
        (le_of_lt (lt_trans (by norm_num [EPSILON_MIN]) h1))
        (by norm_num [EPSILON_DECAY])
    · exact le_refl _
  · intro events
    have step : ∀ (s : RLState) (e : OutcomeEvent), 997/100000 ≤ s.epsilon →
        997/100000 ≤
          ((calculateReward s e.result e.signalConfidence e.marketConditions).2).epsilon := by
      intro s e hs
      rw [calculateReward_epsilon]
      split_ifs with h1 h2
      · have h0 : (1/100 : ℝ) < s.epsilon := by
          unfold EPSILON_MIN at h1
          linarith
        rw [show (997/100000 : ℝ) = (1/100) * (997/1000) by norm_num]
        exact mul_le_mul h0.le (by norm_num [EPSILON_DECAY_FAST]) (by norm_num)
          (le_trans (by norm_num) h0.le)
      · have h0 : (1/100 : ℝ) < s.epsilon := by
          unfold EPSILON_MIN at h1
          linarith
        rw [show (997/100000 : ℝ) = (1/100) * (997/1000) by norm_num]
        exact mul_le_mul h0.le (by norm_num [EPSILON_DECAY]) (by norm_num)
          (le_trans (by norm_num) h0.le)
      · exact hs
    unfold runOutcomes
    have main : ∀ (l : List OutcomeEvent) (s : RLState), 997/100000 ≤ s.epsilon →
        997/100000 ≤
          (l.foldl
            (fun s e => (calculateReward s e.result e.signalConfidence e.marketConditions).2)
            s).epsilon := by
      intro l
      induction l with
      | nil => intro s hs; exact hs
      | cons e rest ih =>
        intro s hs
        rw [List.foldl_cons]
        exact ih _ (step s e hs)
    exact main events initRLState (by norm_num [initRLState])

/-- C4 counterexample: after 1216 consecutive LOSS outcomes, starting
from the initial state (epsilon 0.30), epsilon has decayed strictly below
the configured floor 0.01: the floor is tested before the multiplication,
so the crossing step lands below the floor. -/
theorem epsilon_below_floor_counterexample :
    (runOutcomes (List.replicate 1216 lossEvent)).epsilon < 1/100 := by
  rw [runOutcomes_replicate_eps 1216 (by omega)]
  unfold epsForm EPSILON_DECAY EPSILON_DECAY_FAST
  norm_num

/-- C8: (1) `hasExpired` is true exactly when a window is open and its
elapsed time is at least the 300s maximum (stated for states whose
start-time and pending-signal fields are set together, with a nonzero
start time, as produced by `startTimingWindow` from `Date.now()`);
(2) an evaluation tick never changes the controller state — on expiry it
only emits the EXPIRED callback event, and it emits an event only at
expiry — so the window stays open until the orchestrator calls
`stopTimingWindow`; (3) `stopTimingWindow` clears all window state from
any state and is idempotent, after which `isActive` is false, the elapsed
time is 0, the remaining time is the full 300000 ms and `hasExpired` is
false. -/
theorem timingController_expiry_and_stop :
    (∀ (s : TimingState) (now : ℤ),
      (s.windowStartTime = none ↔ s.pendingSignal = none) →
      s.windowStartTime ≠ some 0 →
      (hasExpired s now = true ↔
        (isActive s = true ∧ MAX_DELAY_MS ≤ getElapsedTime s now))) ∧
    (∀ (s : TimingState) (now : ℤ),
      (timingEvalTick s now).1 = s ∧
      ((timingEvalTick s now).2 ≠ none →
        (timingEvalTick s now).2 = some "EXPIRED" ∧ hasExpired s now = true)) ∧
    (∀ s : TimingState,
      stopTimingWindow (stopTimingWindow s) = stopTimingWindow s ∧
      isActive (stopTimingWindow s) = false ∧
      (∀ now : ℤ, getElapsedTime (stopTimingWindow s) now = 0 ∧
        getRemainingTime (stopTimingWindow s) now = MAX_DELAY_MS ∧
        hasExpired (stopTimingWindow s) now = false)) := by
  refine ⟨?_, ?_, ?_⟩
  · intro s now hlink hz
    cases hws : s.windowStartTime with
    | none =>
      have hps := hlink.mp hws
      simp [hasExpired, isActive, hws, hps]
    | some start =>
      have hstart : start ≠ 0 := by
        intro h0
        rw [h0] at hws
        exact hz hws
      cases hps : s.pendingSignal with
      | none =>
        have : s.windowStartTime = none := hlink.mpr hps
        rw [hws] at this
        exact absurd this (by simp)
      | some p =>
        simp [hasExpired, isActive, getElapsedTime, hws, hps, hstart]
  · intro s now
    cases hws : s.windowStartTime with
    | none => simp [timingEvalTick, hws]
    | some start =>
      cases hps : s.pendingSignal with
      | none => simp [timingEvalTick, hws, hps]
      | some p =>
        by_cases h0 : start = 0
        · simp [timingEvalTick, hws, hps, h0]
        · by_cases hmin : now - start < MIN_DELAY_MS
          · simp [timingEvalTick, hws, hps, h0, hmin]
          · by_cases hmax : MAX_DELAY_MS ≤ now - start
            · by_cases hcb : s.timingCallback
              · refine ⟨by simp [timingEvalTick, hws, hps, h0, hmin, hmax, hcb], ?_⟩
                intro _
                constructor
                · simp [timingEvalTick, hws, hps, h0, hmin, hmax, hcb]
                · simp [hasExpired, hws, h0, hmax]
              · simp [timingEvalTick, hws, hps, h0, hmin, hmax, hcb]
            · simp [timingEvalTick, hws, hps, h0, hmin, hmax]
  · intro s
    refine ⟨rfl, rfl, ?_⟩
    intro now
    exact ⟨rfl, rfl, rfl⟩

/-- Witness for `timingController_expiry_and_stop`: a window opened at
t = 1000 ms has expired by t = 301000 ms (elapsed exactly 300000 ms). -/
theorem timingController_expiry_witness :
    hasExpired
      { windowStartTime := some 1000
        evaluationIntervalId := true
        pendingSignal := some ⟨"BUY", "g", "G", none⟩
        initialConfidence := none
        initialRegime := none
        timingCallback := true } 301000 = true := by
  refine (timingController_expiry_and_stop.1 _ 301000 (by simp) (by simp)).mpr ?_
  refine ⟨by rfl, ?_⟩
  show MAX_DELAY_MS ≤ getElapsedTime _ 301000
  norm_num [getElapsedTime, MAX_DELAY_MS]

theorem sampleIndices_spec (len batchSize : ℕ) (draw : ℕ → ℕ) (hlen : 0 < len) :
    ∀ (fuel step : ℕ) (acc idxs : List ℕ), acc.Nodup → (∀ i ∈ acc, i < len) →
      acc.length ≤ batchSize →
      sampleIndices len batchSize draw fuel step acc = some idxs →
      idxs.Nodup ∧ idxs.length = batchSize ∧ (∀ i ∈ idxs, i < len) := by
  intro fuel
  induction fuel with
  | zero =>
    intro step acc idxs hnd hbound hle h
    simp only [sampleIndices] at h
    split_ifs at h with hfull
    cases h
    exact ⟨hnd, le_antisymm hle hfull, hbound⟩
  | succ fuel ih =>
    intro step acc idxs hnd hbound hle h
    simp only [sampleIndices] at h
    split_ifs at h with hfull hmem
    · cases h
      exact ⟨hnd, le_antisymm hle hfull, hbound⟩
    · exact ih (step + 1) acc idxs hnd hbound hle h
    · refine ih (step + 1) (acc ++ [draw step % len]) idxs ?_ ?_ ?_ h
      · simp [List.nodup_append, hnd, hmem]
      · intro i hi
        rcases List.mem_append.mp hi with hi | hi
        · exact hbound i hi
        · rw [List.mem_singleton.mp hi]
          exact Nat.mod_lt _ hlen
      · have : acc.length < batchSize := lt_of_not_le hfull
        simp only [List.length_append, List.length_singleton]
        omega

/-- C9: since the minimum-experience training threshold (50) is at least
the batch size (32), whenever `canTrain` holds, a terminating `sample()`
call takes the sampling path — the empty-batch early return (buffer
shorter than the batch size) is unreachable — and returns exactly 32
entries taken at pairwise-distinct buffer indices. -/
theorem sample_full_batch_when_canTrain :
    BATCH_SIZE ≤ MIN_EXPERIENCES ∧
    (∀ {α : Type} [Inhabited α] (buffer : List α) (draw : ℕ → ℕ) (fuel : ℕ)
        (batch : List α),
      ExperienceReplayBuffer.canTrain buffer = true →
      ExperienceReplayBuffer.sample buffer BATCH_SIZE draw fuel = some batch →
      batch.length = BATCH_SIZE ∧
        ∃ idxs : List ℕ, idxs.Nodup ∧ idxs.length = BATCH_SIZE ∧
          (∀ i ∈ idxs, i < buffer.length) ∧
          batch = idxs.map (fun i => buffer.getD i default)) := by
  constructor
  · decide
  · intro α _ buffer draw fuel batch hct hs
    have hlen : MIN_EXPERIENCES ≤ buffer.length := by
      have := of_decide_eq_true hct
      exact this
    have hnotshort : ¬ buffer.length < BATCH_SIZE := by
      rw [BATCH_SIZE]
      rw [MIN_EXPERIENCES] at hlen
      omega
    rw [ExperienceReplayBuffer.sample, if_neg hnotshort] at hs
    rcases hidx : sampleIndices buffer.length BATCH_SIZE draw fuel 0 [] with _ | idxs
    · rw [hidx] at hs
      cases hs
    · rw [hidx] at hs
      have hspec := sampleIndices_spec buffer.length BATCH_SIZE draw
        (by rw [MIN_EXPERIENCES] at hlen; omega) fuel 0 [] idxs
        List.nodup_nil (by simp) (by simp) hidx
      cases hs
      refine ⟨by simp [hspec.2.1], idxs, hspec.1, hspec.2.1, hspec.2.2, rfl⟩

/-- Witness for `sample_full_batch_when_canTrain`: a 50-entry buffer with
the identity random stream and fuel 32 yields the batch of the first 32
entries, of length exactly 32. -/
theorem sample_full_batch_witness :
    ExperienceReplayBuffer.canTrain (List.range 50) = true ∧
    ExperienceReplayBuffer.sample (List.range 50) BATCH_SIZE (fun n => n) 32 =
      some (List.range 32) ∧
    (List.range 32).length = BATCH_SIZE := by
  have h1 : ExperienceReplayBuffer.canTrain (List.range 50) = true := by decide
  have h2 : ExperienceReplayBuffer.sample (List.range 50) BATCH_SIZE
      (fun n => n) 32 = some (List.range 32) := by decide
  have h3 := (sample_full_batch_when_canTrain.2 (List.range 50)
    (fun n => n) 32 (List.range 32) h1 h2).1
  rw [List.length_range] at h3 ⊢
  exact ⟨h1, h2, h3⟩

theorem range_map_get? {α : Type} (l : List α) :
    (List.range l.length).map (fun i => l.get? i) = l.map some := by
  induction l with
  | nil => rfl
  | cons a t ih =>
    rw [List.length_cons, List.range_succ_eq_map, List.map_cons, List.map_map,
      List.map_cons]
    refine congrArg _ ?_
    rw [← ih]
    rfl

theorem bufInv_init : BufInv (CandleBuffer.init MAX_CANDLES) [] := by
  refine ⟨rfl, rfl, rfl, by norm_num, rfl, rfl, ?_⟩
  intro i hi
  simp at hi

theorem bufInv_lastIndex (b : CandleBuffer) (cs : List Candle)
    (hinv : BufInv b cs) (hne : cs ≠ []) :
    (if b.head = 0 then b.maxSize - 1 else b.head - 1) = cs.length - 1 := by
  obtain ⟨hmax, htail, hsize, hlen, hhead, hfull, hbuf⟩ := hinv
  have hpos : 0 < cs.length := List.length_pos.mpr hne
  rw [MAX_CANDLES] at hlen
  rcases lt_or_eq_of_le hlen with hlt | heq
  · have : cs.length % MAX_CANDLES = cs.length := Nat.mod_eq_of_lt (by rw [MAX_CANDLES]; omega)
    rw [hhead, this, if_neg (by omega)]
  · rw [hhead, show cs.length % MAX_CANDLES = 0 by rw [heq, MAX_CANDLES]]
    rw [if_pos rfl, hmax, MAX_CANDLES]
    omega

theorem bufInv_getLastCandle (b : CandleBuffer) (cs : List Candle)
    (hinv : BufInv b cs) : b.getLastCandle = cs.getLast? := by
  obtain ⟨hmax, htail, hsize, hlen, hhead, hfull, hbuf⟩ := hinv
  rcases eq_or_ne cs [] with hcs | hcs
  · subst hcs
    rw [CandleBuffer.getLastCandle, if_pos (by rw [hsize]; rfl)]
    rfl
  · have hpos : 0 < cs.length := List.length_pos.mpr hcs
    rw [CandleBuffer.getLastCandle, if_neg (by rw [hsize]; omega)]
    rw [bufInv_lastIndex b cs ⟨hmax, htail, hsize, hlen, hhead, hfull, hbuf⟩ hcs]
    rw [hbuf (cs.length - 1) (by omega)]
    rw [List.getLast?_eq_getElem?, List.get?_eq_getElem?]

theorem bufInv_push (b : CandleBuffer) (cs : List Candle) (c : Candle)
    (hinv : BufInv b cs) (hlt : cs.length < MAX_CANDLES) :
    BufInv (b.push c) (cs ++ [c]) := by
  obtain ⟨hmax, htail, hsize, hlen, hhead, hfull, hbuf⟩ := hinv
  have hmod : cs.length % MAX_CANDLES = cs.length := Nat.mod_eq_of_lt hlt
  have hnotfull : b.isFull = false := by
    rw [hfull, decide_eq_false_iff_not]
    omega
  have hheadv : b.head = cs.length := by rw [hhead, hmod]
  simp only [CandleBuffer.push, hnotfull, Bool.false_eq_true, if_false]
  refine ⟨hmax, htail, ?_, ?_, ?_, ?_, ?_⟩
  · show b.size + 1 = (cs ++ [c]).length
    rw [hsize, List.length_append, List.length_singleton]
  · rw [List.length_append, List.length_singleton, MAX_CANDLES]
    rw [MAX_CANDLES] at hlt
    omega
  · show (b.head + 1) % b.maxSize = (cs ++ [c]).length % MAX_CANDLES
    rw [hheadv, hmax, List.length_append, List.length_singleton]
  · show decide (b.size + 1 = b.maxSize) = decide ((cs ++ [c]).length = MAX_CANDLES)
    rw [hsize, hmax, List.length_append, List.length_singleton]
  · intro i hi
    show Function.update b.buffer b.head (some c) i = (cs ++ [c]).get? i
    rw [List.length_append, List.length_singleton] at hi
    rcases lt_or_eq_of_le (Nat.lt_succ_iff.mp hi) with hilt | hieq
    · rw [Function.update_noteq (by omega : i ≠ b.head)]
      rw [hbuf i hilt, List.get?_append hilt]
    · rw [hieq, ← hheadv, Function.update_same, hheadv]
      rw [List.get?_concat_length]

theorem updateLast_eq (b : CandleBuffer) (cs : List Candle) (lc : Candle)
    (hinv : BufInv b cs) (hlast : cs.getLast? = some lc) (uh ul uc : ℝ) :
    b.updateLast ⟨some uh, some ul, some uc⟩ =
      { b with buffer := (Function.update b.buffer (cs.length - 1)
          (some ⟨lc.t, lc.o, max lc.h uh, min lc.l ul, uc⟩)) } := by
  have hne : cs ≠ [] := by
    intro h
    rw [h] at hlast
    simp at hlast
  have hpos : 0 < cs.length := List.length_pos.mpr hne
  have hli := bufInv_lastIndex b cs hinv hne
  obtain ⟨hmax, htail, hsize, hlen, hhead, hfull, hbuf⟩ := hinv
  have hentry : b.buffer (cs.length - 1) = some lc := by
    rw [hbuf _ (by omega), List.get?_eq_getElem?, ← List.getLast?_eq_getElem?]
    exact hlast
  have hsz : ¬ b.size = 0 := by rw [hsize]; omega
  simp only [CandleBuffer.updateLast, hsz, if_false, hli, hentry]

theorem bufInv_updateLast (b : CandleBuffer) (cs : List Candle) (lc : Candle)
    (hinv : BufInv b cs) (hlast : cs.getLast? = some lc) (uh ul uc : ℝ) :
    BufInv (b.updateLast ⟨some uh, some ul, some uc⟩)
      (cs.dropLast ++ [⟨lc.t, lc.o, max lc.h uh, min lc.l ul, uc⟩]) := by
  have hne : cs ≠ [] := by
    intro h
    rw [h] at hlast
    simp at hlast
  have hpos : 0 < cs.length := List.length_pos.mpr hne
  rw [updateLast_eq b cs lc hinv hlast uh ul uc]
  obtain ⟨hmax, htail, hsize, hlen, hhead, hfull, hbuf⟩ := hinv
  have hlendl : (cs.dropLast ++ [(⟨lc.t, lc.o, max lc.h uh, min lc.l ul, uc⟩ : Candle)]).length = cs.length := by
    rw [List.length_append, List.length_singleton, List.length_dropLast]
    omega
  refine ⟨hmax, htail, ?_, ?_, ?_, ?_, ?_⟩
  · rw [hlendl, hsize]
  · rw [hlendl]
    exact hlen
  · rw [hlendl]
    exact hhead
  · rw [hlendl]
    exact hfull
  · intro i hi
    rw [hlendl] at hi
    have hdl : cs.length - 1 = cs.dropLast.length := by
      rw [List.length_dropLast]
    show Function.update b.buffer (cs.length - 1)
      (some (⟨lc.t, lc.o, max lc.h uh, min lc.l ul, uc⟩ : Candle)) i =
      (cs.dropLast ++ [(⟨lc.t, lc.o, max lc.h uh, min lc.l ul, uc⟩ : Candle)]).get? i
    rcases lt_or_eq_of_le (by omega : i ≤ cs.length - 1) with hilt | hieq
    · rw [Function.update_noteq (by omega : i ≠ cs.length - 1)]
      rw [hbuf i hi]
      have hcs : cs.dropLast ++ [lc] = cs :=
        (List.dropLast_append_getLast? lc hlast)
      conv_lhs => rw [← hcs]
      rw [List.get?_append (by omega : i < cs.dropLast.length),
        List.get?_append (by omega : i < cs.dropLast.length)]
    · rw [hieq, Function.update_same, hdl]
      rw [List.get?_concat_length]

theorem bufInv_toArray (b : CandleBuffer) (cs : List Candle)
    (hinv : BufInv b cs) : b.toArray = cs.map some := by
  obtain ⟨hmax, htail, hsize, hlen, hhead, hfull, hbuf⟩ := hinv
  rw [CandleBuffer.toArray, hsize, htail, hmax, ← range_map_get? cs]
  apply List.map_congr_left
  intro i hi
  have hilt : i < cs.length := List.mem_range.mp hi
  rw [Nat.zero_add, Nat.mod_eq_of_lt (lt_of_lt_of_le hilt hlen)]
  exact hbuf i hilt

theorem acceptedTicks_append (l₁ l₂ : List (ℤ × ℝ)) :
    acceptedTicks (l₁ ++ l₂) = acceptedTicks l₁ ++ acceptedTicks l₂ := by
  simp [acceptedTicks, List.filter_append]

theorem acceptedBuckets_append (l₁ l₂ : List (ℤ × ℝ)) :
    acceptedBuckets (l₁ ++ l₂) = acceptedBuckets l₁ ++ acceptedBuckets l₂ := by
  simp [acceptedBuckets, acceptedTicks_append]

theorem acceptedTicks_singleton_rej (tk : ℤ × ℝ) (hp : tk.2 = 0) :
    acceptedTicks [tk] = [] := by
  simp [acceptedTicks, hp]

theorem acceptedTicks_singleton_acc (tk : ℤ × ℝ) (hp : tk.2 ≠ 0) :
    acceptedTicks [tk] = [tk] := by
  simp [acceptedTicks, hp]

theorem acceptedBuckets_singleton_rej (tk : ℤ × ℝ) (hp : tk.2 = 0) :
    acceptedBuckets [tk] = [] := by
  simp [acceptedBuckets, acceptedTicks_singleton_rej tk hp]

theorem acceptedBuckets_singleton_acc (tk : ℤ × ℝ) (hp : tk.2 ≠ 0) :
    acceptedBuckets [tk] = [minuteBucket tk.1] := by
  simp [acceptedBuckets, acceptedTicks_singleton_acc tk hp]

theorem bucketPrices_append (l₁ l₂ : List (ℤ × ℝ)) (b : ℤ) :
    bucketPrices (l₁ ++ l₂) b = bucketPrices l₁ b ++ bucketPrices l₂ b := by
  simp [bucketPrices, acceptedTicks_append, List.filter_append]

theorem bucketPrices_singleton_rej (tk : ℤ × ℝ) (b : ℤ) (hp : tk.2 = 0) :
    bucketPrices [tk] b = [] := by
  simp [bucketPrices, acceptedTicks_singleton_rej tk hp]

theorem bucketPrices_singleton_same (tk : ℤ × ℝ) (hp : tk.2 ≠ 0) :
    bucketPrices [tk] (minuteBucket tk.1) = [tk.2] := by
  simp [bucketPrices, acceptedTicks_singleton_acc tk hp]

theorem bucketPrices_singleton_other (tk : ℤ × ℝ) (b : ℤ)
    (hb : minuteBucket tk.1 ≠ b) : bucketPrices [tk] b = [] := by
  by_cases hp : tk.2 = 0
  · exact bucketPrices_singleton_rej tk b hp
  · simp [bucketPrices, acceptedTicks_singleton_acc tk hp, hb]

theorem bucketPrices_empty_of_not_mem (l : List (ℤ × ℝ)) (b : ℤ)
    (hb : b ∉ acceptedBuckets l) : bucketPrices l b = [] := by
  rw [bucketPrices, List.map_eq_nil, List.filter_eq_nil]
  intro tk htk
  simp only [decide_eq_true_eq]
  intro heq
  exact hb (by
    rw [acceptedBuckets]
    exact List.mem_map.mpr ⟨tk, htk, heq⟩)

theorem mem_le_getLast_of_chain (l : List ℤ) (hch : List.Chain' (· < ·) l)
    (a : ℤ) (ha : l.getLast? = some a) : ∀ x ∈ l, x ≤ a := by
  have hpw : List.Pairwise (· < ·) l :=
    List.chain'_iff_pairwise.mp hch
  have hdecomp : l.dropLast ++ [a] = l := List.dropLast_append_getLast? a ha
  intro x hx
  rw [← hdecomp] at hx hpw
  rcases List.mem_append.mp hx with hx | hx
  · have := (List.pairwise_append.mp hpw).2.2 x hx a (by simp)
    exact le_of_lt this
  · rw [List.mem_singleton.mp hx]

theorem mem_lt_getLast_of_chain (l : List ℤ) (hch : List.Chain' (· < ·) l)
    (a : ℤ) (ha : l.getLast? = some a) : ∀ x ∈ l.dropLast, x < a := by
  have hpw : List.Pairwise (· < ·) l :=
    List.chain'_iff_pairwise.mp hch
  have hdecomp : l.dropLast ++ [a] = l := List.dropLast_append_getLast? a ha
  intro x hx
  rw [← hdecomp] at hpw
  exact (List.pairwise_append.mp hpw).2.2 x hx a (by simp)

theorem nodup_of_chain_lt (l : List ℤ) (hch : List.Chain' (· < ·) l) :
    l.Nodup :=
  (List.chain'_iff_pairwise.mp hch).imp ne_of_lt

theorem nodup_subset_length_le (l L : List ℤ) (hnd : l.Nodup)
    (hsub : ∀ x ∈ l, x ∈ L) : l.length ≤ L.dedup.length := by
  rw [← List.toFinset_card_of_nodup hnd, ← List.card_toFinset]
  apply Finset.card_le_card
  intro x hx
  rw [List.mem_toFinset] at hx ⊢
  exact hsub x hx

theorem candleListSpec_nil : CandleListSpec [] [] := by
  refine ⟨by simp, ?_, by simp⟩
  intro b
  simp [acceptedBuckets, acceptedTicks]

theorem candleListSpec_step (processed : List (ℤ × ℝ)) (cs : List Candle)
    (tk : ℤ × ℝ) (hspec : CandleListSpec processed cs)
    (hmono : tk.2 ≠ 0 → ∀ b ∈ acceptedBuckets processed, b ≤ minuteBucket tk.1) :
    CandleListSpec (processed ++ [tk]) (stepCandles cs tk.1 tk.2) := by
  obtain ⟨hch, hmem, hprops⟩ := hspec
  by_cases hp : tk.2 = 0
  · rw [stepCandles, if_pos hp]
    refine ⟨hch, ?_, ?_⟩
    · intro b
      rw [acceptedBuckets_append, acceptedBuckets_singleton_rej tk hp,
        List.append_nil]
      exact hmem b
    · intro c hc
      rw [bucketPrices_append, bucketPrices_singleton_rej tk c.t hp,
        List.append_nil]
      exact hprops c hc
  · rw [stepCandles, if_neg hp]
    have hmono' := hmono hp
    have hbks : acceptedBuckets (processed ++ [tk]) =
        acceptedBuckets processed ++ [minuteBucket tk.1] := by
      rw [acceptedBuckets_append, acceptedBuckets_singleton_acc tk hp]
    rcases hlast : cs.getLast? with _ | last
    · -- empty candle list: fresh first candle
      have hcs : cs = [] := List.getLast?_eq_none.mp hlast
      subst hcs
      show CandleListSpec (processed ++ [tk])
        [(⟨minuteBucket tk.1, tk.2, tk.2, tk.2, tk.2⟩ : Candle)]
      have hnb : acceptedBuckets processed = [] := by
        rw [List.eq_nil_iff_forall_not_mem]
        intro b hb
        rcases (hmem b).mpr hb with ⟨c, hc, _⟩
        simp at hc
      have hpr : bucketPrices processed (minuteBucket tk.1) = [] :=
        bucketPrices_empty_of_not_mem _ _ (by rw [hnb]; simp)
      refine ⟨by simp, ?_, ?_⟩
      · intro b
        rw [hbks, hnb, List.nil_append, List.mem_singleton]
        constructor
        · rintro ⟨c, hc, hcb⟩
          rw [List.mem_singleton] at hc
          subst hc
          exact hcb.symm
        · intro hb
          exact ⟨_, List.mem_singleton_self _, hb.symm⟩
      · intro c hc
        rw [List.mem_singleton] at hc
        subst hc
        rw [bucketPrices_append, hpr, List.nil_append,
          bucketPrices_singleton_same tk hp]
        refine ⟨rfl, rfl, ?_⟩
        intro q hq
        rw [List.mem_singleton.mp hq]
        exact ⟨le_refl _, le_refl _⟩
    · show CandleListSpec (processed ++ [tk])
        (if last.t < minuteBucket tk.1 then
          cs ++ [(⟨minuteBucket tk.1, tk.2, tk.2, tk.2, tk.2⟩ : Candle)]
        else cs.dropLast ++
          [(⟨last.t, last.o, max last.h tk.2, min last.l tk.2, tk.2⟩ : Candle)])
      have hlastmem : last ∈ cs := by
        have hdecomp : cs.dropLast ++ [last] = cs :=
          List.dropLast_append_getLast? last hlast
        rw [← hdecomp]
        exact List.mem_append.mpr (Or.inr (List.mem_singleton_self _))
      have hlastT : (cs.map (fun c => c.t)).getLast? = some last.t := by
        rw [List.getLast?_map, hlast]
        rfl
      have hboundT : ∀ c ∈ cs, c.t ≤ last.t := by
        intro c hc
        exact mem_le_getLast_of_chain _ hch last.t hlastT c.t
          (List.mem_map.mpr ⟨c, hc, rfl⟩)
      by_cases hlt : last.t < minuteBucket tk.1
      · -- push: a genuinely new bucket
        rw [if_pos hlt]
        have hfresh : ∀ c ∈ cs, c.t ≠ minuteBucket tk.1 := by
          intro c hc
          have := hboundT c hc
          omega
        have hnotmem : minuteBucket tk.1 ∉ acceptedBuckets processed := by
          intro hmem'
          rcases (hmem _).mpr hmem' with ⟨c, hc, hcb⟩
          exact hfresh c hc hcb
        have hpr : bucketPrices processed (minuteBucket tk.1) = [] :=
          bucketPrices_empty_of_not_mem _ _ hnotmem
        refine ⟨?_, ?_, ?_⟩
        · rw [List.map_append, List.chain'_append]
          refine ⟨hch, by simp, ?_⟩
          intro x hx y hy
          rw [hlastT] at hx
          cases hx
          simp only [List.map_cons, List.map_nil, List.head?_cons,
            Option.some.injEq] at hy
          cases hy
          exact hlt
        · intro b
          rw [hbks, List.mem_append, List.mem_singleton]
          constructor
          · rintro ⟨c, hc, hcb⟩
            rcases List.mem_append.mp hc with hc | hc
            · exact Or.inl ((hmem b).mp ⟨c, hc, hcb⟩)
            · rw [List.mem_singleton] at hc
              subst hc
              exact Or.inr hcb.symm
          · rintro (hb | hb)
            · rcases (hmem b).mpr hb with ⟨c, hc, hcb⟩
              exact ⟨c, List.mem_append.mpr (Or.inl hc), hcb⟩
            · subst hb
              exact ⟨_, List.mem_append.mpr (Or.inr (List.mem_singleton_self _)),
                rfl⟩
        · intro c hc
          rcases List.mem_append.mp hc with hc | hc
          · rw [bucketPrices_append,
              bucketPrices_singleton_other tk c.t (fun h => hfresh c hc h.symm),
              List.append_nil]
            exact hprops c hc
          · rw [List.mem_singleton] at hc
            subst hc
            rw [bucketPrices_append, hpr, List.nil_append,
              bucketPrices_singleton_same tk hp]
            refine ⟨rfl, rfl, ?_⟩
            intro q hq
            rw [List.mem_singleton.mp hq]
            exact ⟨le_refl _, le_refl _⟩
      · -- update: the tick falls in the latest candle's bucket
        rw [if_neg hlt]
        have hctmem : last.t ∈ acceptedBuckets processed :=
          (hmem last.t).mp ⟨last, hlastmem, rfl⟩
        have hcteq : minuteBucket tk.1 = last.t :=
          le_antisymm (not_lt.mp hlt) (hmono' last.t hctmem)
        have hdecomp : cs.dropLast ++ [last] = cs :=
          List.dropLast_append_getLast? last hlast
        have hdropT : ∀ c ∈ cs.dropLast, c.t < last.t := by
          intro c hc
          refine mem_lt_getLast_of_chain _ hch last.t hlastT c.t ?_
          rw [← List.map_dropLast]
          exact List.mem_map.mpr ⟨c, hc, rfl⟩
        have holdprops := hprops last hlastmem
        refine ⟨?_, ?_, ?_⟩
        · have hmapeq : (cs.dropLast ++
              [(⟨last.t, last.o, max last.h tk.2, min last.l tk.2, tk.2⟩ :
                Candle)]).map (fun c => c.t) =
              cs.map (fun c => c.t) := by
            conv_rhs => rw [← hdecomp]
            simp
          rw [hmapeq]
          exact hch
        · intro b
          rw [hbks, List.mem_append, List.mem_singleton]
          constructor
          · rintro ⟨c, hc, hcb⟩
            rcases List.mem_append.mp hc with hc | hc
            · exact Or.inl ((hmem b).mp
                ⟨c, List.dropLast_subset cs hc, hcb⟩)
            · rw [List.mem_singleton] at hc
              subst hc
              exact Or.inl ((hmem b).mp ⟨last, hlastmem, hcb⟩)
          · rintro (hb | hb)
            · rcases (hmem b).mpr hb with ⟨c, hc, hcb⟩
              conv at hc => rw [← hdecomp]
              rcases List.mem_append.mp hc with hc | hc
              · exact ⟨c, List.mem_append.mpr (Or.inl hc), hcb⟩
              · rw [List.mem_singleton] at hc
                subst hc
                refine ⟨_, List.mem_append.mpr
                  (Or.inr (List.mem_singleton_self _)), hcb⟩
            · subst hb
              refine ⟨_, List.mem_append.mpr
                (Or.inr (List.mem_singleton_self _)), hcteq.symm⟩
        · intro c hc
          rcases List.mem_append.mp hc with hc | hc
          · have hclt : c.t < last.t := hdropT c hc
            rw [bucketPrices_append,
              bucketPrices_singleton_other tk c.t (by rw [hcteq]; omega),
              List.append_nil]
            exact hprops c (List.dropLast_subset cs hc)
          · rw [List.mem_singleton] at hc
            subst hc
            have hne : bucketPrices processed last.t ≠ [] := by
              intro h0
              rw [h0] at holdprops
              simp at holdprops
            rw [bucketPrices_append]
            rw [show bucketPrices [tk]
                (⟨last.t, last.o, max last.h tk.2, min last.l tk.2, tk.2⟩ :
                  Candle).t = [tk.2] from by
              show bucketPrices [tk] last.t = [tk.2]
              rw [← hcteq]
              exact bucketPrices_singleton_same tk hp]
            refine ⟨?_, ?_, ?_⟩
            · rw [List.head?_append_of_ne_nil _ hne]
              exact holdprops.1
            · rw [List.getLast?_concat]
            · intro q hq
              rcases List.mem_append.mp hq with hq | hq
              · have hb := holdprops.2.2 q hq
                constructor
                · exact le_trans (min_le_left _ _) hb.1
                · exact le_trans hb.2 (le_max_left _ _)
              · rw [List.mem_singleton.mp hq]
                exact ⟨min_le_right _ _, le_max_right _ _⟩

theorem stepCandles_rej (cs : List Candle) (t : ℤ) (p : ℝ) (hp : p = 0) :
    stepCandles cs t p = cs := by
  rw [stepCandles, if_pos hp]

theorem stepCandles_none (cs : List Candle) (t : ℤ) (p : ℝ) (hp : p ≠ 0)
    (hc : cs.getLast? = none) :
    stepCandles cs t p = cs ++ [⟨minuteBucket t, p, p, p, p⟩] := by
  rw [stepCandles, if_neg hp, hc]

theorem stepCandles_push (cs : List Candle) (t : ℤ) (p : ℝ) (last : Candle)
    (hp : p ≠ 0) (hc : cs.getLast? = some last)
    (hlt : last.t < minuteBucket t) :
    stepCandles cs t p = cs ++ [⟨minuteBucket t, p, p, p, p⟩] := by
  rw [stepCandles, if_neg hp, hc]
  show (if last.t < minuteBucket t then _ else _) = _
  rw [if_pos hlt]

theorem stepCandles_update (cs : List Candle) (t : ℤ) (p : ℝ) (last : Candle)
    (hp : p ≠ 0) (hc : cs.getLast? = some last)
    (hnlt : ¬ last.t < minuteBucket t) :
    stepCandles cs t p = cs.dropLast ++
      [⟨last.t, last.o, max last.h p, min last.l p, p⟩] := by
  rw [stepCandles, if_neg hp, hc]
  show (if last.t < minuteBucket t then _ else _) = _
  rw [if_neg hnlt]

theorem pushTick_none (t : ℤ) (p : ℝ) (s : AggState) (hp : p ≠ 0)
    (hc : s.buf.getLastCandle = none) :
    pushTick t p s =
      { buf := s.buf.push ⟨minuteBucket t, p, p, p, p⟩,
        lastPrice := some p } := by
  rw [pushTick, if_neg hp, hc]

theorem pushTick_push (t : ℤ) (p : ℝ) (s : AggState) (last : Candle)
    (hp : p ≠ 0) (hc : s.buf.getLastCandle = some last)
    (hlt : last.t < minuteBucket t) :
    pushTick t p s =
      { buf := s.buf.push ⟨minuteBucket t, p, p, p, p⟩,
        lastPrice := some p } := by
  rw [pushTick, if_neg hp, hc]
  show (if last.t < minuteBucket t then _ else _) = _
  rw [if_pos hlt]

theorem pushTick_update (t : ℤ) (p : ℝ) (s : AggState) (last : Candle)
    (hp : p ≠ 0) (hc : s.buf.getLastCandle = some last)
    (hnlt : ¬ last.t < minuteBucket t) :
    pushTick t p s =
      { buf := s.buf.updateLast
          ⟨some (max last.h p), some (min last.l p), some p⟩,
        lastPrice := some p } := by
  rw [pushTick, if_neg hp, hc]
  show (if last.t < minuteBucket t then _ else _) = _
  rw [if_neg hnlt]

theorem pushTick_refines (s : AggState) (cs : List Candle) (t : ℤ) (p : ℝ)
    (hinv : BufInv s.buf cs)
    (hgrow : p ≠ 0 →
      (match cs.getLast? with
       | none => True
       | some last => last.t < minuteBucket t) → cs.length < MAX_CANDLES) :
    BufInv (pushTick t p s).buf (stepCandles cs t p) := by
  by_cases hp : p = 0
  · rw [stepCandles_rej cs t p hp, pushTick, if_pos hp]
    exact hinv
  · have hlastc : s.buf.getLastCandle = cs.getLast? :=
      bufInv_getLastCandle s.buf cs hinv
    rcases hlast : cs.getLast? with _ | lc
    · rw [pushTick_none t p s hp (hlastc.trans hlast),
        stepCandles_none cs t p hp hlast]
      exact bufInv_push s.buf cs _ hinv (hgrow hp (by rw [hlast]; trivial))
    · by_cases hlt : lc.t < minuteBucket t
      · rw [pushTick_push t p s lc hp (hlastc.trans hlast) hlt,
          stepCandles_push cs t p lc hp hlast hlt]
        exact bufInv_push s.buf cs _ hinv (hgrow hp (by rw [hlast]; exact hlt))
      · rw [pushTick_update t p s lc hp (hlastc.trans hlast) hlt,
          stepCandles_update cs t p lc hp hlast hlt]
        have hb := bufInv_updateLast s.buf cs lc hinv hlast
          (max lc.h p) (min lc.l p) p
        rw [show max lc.h (max lc.h p) = max lc.h p from by
            rw [← max_assoc, max_self],
          show min lc.l (min lc.l p) = min lc.l p from by
            rw [← min_assoc, min_self]] at hb
        exact hb

theorem aggregate_invariant_aux (total : List (ℤ × ℝ))
    (hmono : List.Pairwise (· ≤ ·) (acceptedBuckets total))
    (hcap : (acceptedBuckets total).dedup.length ≤ MAX_CANDLES) :
    ∀ (rest processed : List (ℤ × ℝ)) (s : AggState) (cs : List Candle),
      total = processed ++ rest →
      BufInv s.buf cs → CandleListSpec processed cs →
      BufInv ((rest.foldl (fun s tk => pushTick tk.1 tk.2 s) s).buf)
          (rest.foldl (fun cs tk => stepCandles cs tk.1 tk.2) cs) ∧
        CandleListSpec total
          (rest.foldl (fun cs tk => stepCandles cs tk.1 tk.2) cs) := by
  intro rest
  induction rest with
  | nil =>
    intro processed s cs htot hbuf hspec
    rw [List.append_nil] at htot
    subst htot
    exact ⟨hbuf, hspec⟩
  | cons tk rest ih =>
    intro processed s cs htot hbuf hspec
    rw [List.foldl_cons, List.foldl_cons]
    have hstepmono : tk.2 ≠ 0 →
        ∀ b ∈ acceptedBuckets processed, b ≤ minuteBucket tk.1 := by
      intro hp b hb
      have h2 : minuteBucket tk.1 ∈ acceptedBuckets (tk :: rest) := by
        rw [show (tk :: rest) = [tk] ++ rest from rfl, acceptedBuckets_append,
          acceptedBuckets_singleton_acc tk hp]
        simp
      have hm := hmono
      rw [htot, acceptedBuckets_append] at hm
      exact (List.pairwise_append.mp hm).2.2 b hb _ h2
    have hspec' := candleListSpec_step processed cs tk hspec hstepmono
    have hgrow : tk.2 ≠ 0 →
        (match cs.getLast? with
         | none => True
         | some last => last.t < minuteBucket tk.1) →
        cs.length < MAX_CANDLES := by
      intro hp hpush
      have hndcs : (cs.map (fun c => c.t)).Nodup :=
        nodup_of_chain_lt _ hspec.1
      have hfresh : minuteBucket tk.1 ∉ cs.map (fun c => c.t) := by
        rcases hlast : cs.getLast? with _ | last
        · rw [List.getLast?_eq_none.mp hlast]
          simp
        · rw [hlast] at hpush
          intro hmem'
          rcases List.mem_map.mp hmem' with ⟨c, hc, hcb⟩
          have hlastT : (cs.map (fun c => c.t)).getLast? = some last.t := by
            rw [List.getLast?_map, hlast]
            rfl
          have h1 : c.t ≤ last.t :=
            mem_le_getLast_of_chain _ hspec.1 last.t hlastT c.t
              (List.mem_map.mpr ⟨c, hc, rfl⟩)
          omega
      have hnd2 : ((cs.map (fun c => c.t)) ++ [minuteBucket tk.1]).Nodup := by
        rw [List.nodup_append]
        refine ⟨hndcs, List.nodup_singleton _, ?_⟩
        intro x hx
        rw [List.mem_singleton]
        intro hx2
        subst hx2
        exact hfresh hx
      have hsub : ∀ x ∈ (cs.map fun c => c.t) ++ [minuteBucket tk.1],
          x ∈ acceptedBuckets total := by
        intro x hx
        rw [htot, acceptedBuckets_append, List.mem_append]
        rcases List.mem_append.mp hx with hx | hx
        · rcases List.mem_map.mp hx with ⟨c, hc, hcb⟩
          subst hcb
          exact Or.inl ((hspec.2.1 c.t).mp ⟨c, hc, rfl⟩)
        · rw [List.mem_singleton] at hx
          subst hx
          refine Or.inr ?_
          rw [show (tk :: rest) = [tk] ++ rest from rfl, acceptedBuckets_append,
            acceptedBuckets_singleton_acc tk hp]
          simp
      have hlen := nodup_subset_length_le _ _ hnd2 hsub
      rw [List.length_append, List.length_singleton, List.length_map] at hlen
      omega
    have hstep := pushTick_refines s cs tk.1 tk.2 hbuf hgrow
    exact ih (processed ++ [tk]) _ _
      (by rw [htot, List.append_assoc]; rfl) hstep hspec'

/-- C1 (amended): provided the accepted ticks arrive with non-decreasing
minute buckets and touch at most 2000 (the ring capacity) distinct
buckets, the resulting candle series — the ring buffer read back in
chronological order — holds exactly one candle per distinct minute bucket
touched, in strictly increasing bucket order; each candle's open is the
bucket's first accepted price, its close the bucket's last accepted
price, and its low/high bound every accepted price of the bucket. -/
theorem aggregation_invariant (ticks : List (ℤ × ℝ))
    (hmono : List.Chain' (· ≤ ·) (acceptedBuckets ticks))
    (hcap : (acceptedBuckets ticks).dedup.length ≤ MAX_CANDLES) :
    ∃ cs : List Candle,
      (runTicks ticks).buf.toArray = cs.map some ∧
      List.Chain' (· < ·) (cs.map (fun c => c.t)) ∧
      (∀ b : ℤ, (∃ c ∈ cs, c.t = b) ↔ b ∈ acceptedBuckets ticks) ∧
      (∀ c ∈ cs,
        (bucketPrices ticks c.t).head? = some c.o ∧
        (bucketPrices ticks c.t).getLast? = some c.c ∧
        (∀ p ∈ bucketPrices ticks c.t, c.l ≤ p ∧ p ≤ c.h)) := by
  have hpw : List.Pairwise (· ≤ ·) (acceptedBuckets ticks) :=
    List.chain'_iff_pairwise.mp hmono
  have h := aggregate_invariant_aux ticks hpw hcap ticks [] initAggState []
    (by rw [List.nil_append]) bufInv_init candleListSpec_nil
  obtain ⟨hbuf, hch, hmem, hprops⟩ := h
  exact ⟨_, bufInv_toArray _ _ hbuf, hch, hmem, hprops⟩

/-- Witness for `aggregation_invariant`: three ticks, two in minute 0 and
one in minute 1, satisfy the monotonicity and capacity hypotheses. -/
theorem aggregation_invariant_witness :
    ∃ cs : List Candle,
      (runTicks [((0:ℤ), (1:ℝ)), (10000, 2), (60000, 3)]).buf.toArray =
        cs.map some ∧
      List.Chain' (· < ·) (cs.map (fun c => c.t)) ∧
      (∀ b : ℤ, (∃ c ∈ cs, c.t = b) ↔
        b ∈ acceptedBuckets [((0:ℤ), (1:ℝ)), (10000, 2), (60000, 3)]) ∧
      (∀ c ∈ cs,
        (bucketPrices [((0:ℤ), (1:ℝ)), (10000, 2), (60000, 3)] c.t).head? =
          some c.o ∧
        (bucketPrices [((0:ℤ), (1:ℝ)), (10000, 2), (60000, 3)] c.t).getLast? =
          some c.c ∧
        (∀ p ∈ bucketPrices [((0:ℤ), (1:ℝ)), (10000, 2), (60000, 3)] c.t,
          c.l ≤ p ∧ p ≤ c.h)) := by
  have hacc : acceptedTicks [((0:ℤ), (1:ℝ)), (10000, 2), (60000, 3)] =
      [((0:ℤ), (1:ℝ)), (10000, 2), (60000, 3)] := by
    rw [acceptedTicks]
    rw [List.filter_eq_self]
    intro a ha
    fin_cases ha <;> norm_num
  have hbks : acceptedBuckets [((0:ℤ), (1:ℝ)), (10000, 2), (60000, 3)] =
      [0, 0, 60000] := by
    rw [acceptedBuckets, hacc]
    decide
  apply aggregation_invariant
  · rw [hbks]
    simp [List.chain'_cons]
  · rw [hbks]
    decide

/-- C1 counterexample: the tick sequence `[(120000, 1), (0, 2)]` touches
two distinct minute buckets (120000 and 0) with accepted prices, yet the
resulting series contains no candle for bucket 0: the out-of-order tick
is merged into the latest candle instead of getting its own bucket. -/
theorem aggregation_counterexample :
    ((0:ℤ), (2:ℝ)).2 ≠ 0 ∧ minuteBucket ((0:ℤ), (2:ℝ)).1 = 0 ∧
    ¬ (∃ co ∈ (runTicks [((120000:ℤ), (1:ℝ)), (0, 2)]).buf.toArray,
        ∃ c : Candle, co = some c ∧ c.t = 0) := by
  have hb1 : minuteBucket 120000 = 120000 := by decide
  have hb0 : minuteBucket 0 = 0 := by decide
  have h2 : pushTick 120000 1 initAggState =
      { buf := (CandleBuffer.init MAX_CANDLES).push ⟨120000, 1, 1, 1, 1⟩,
        lastPrice := some 1 } := by
    rw [pushTick_none 120000 1 initAggState (by norm_num) rfl, hb1]
    rfl
  have hglc : ((CandleBuffer.init MAX_CANDLES).push
      ⟨120000, 1, 1, 1, 1⟩).getLastCandle = some ⟨120000, 1, 1, 1, 1⟩ := rfl
  have h3 : runTicks [((120000:ℤ), (1:ℝ)), (0, 2)] =
      { buf := ((CandleBuffer.init MAX_CANDLES).push
          ⟨120000, 1, 1, 1, 1⟩).updateLast
            ⟨some (max 1 2), some (min 1 2), some 2⟩,
        lastPrice := some 2 } := by
    show pushTick 0 2 (pushTick 120000 1 initAggState) = _
    rw [h2]
    exact pushTick_update 0 2 _ ⟨120000, 1, 1, 1, 1⟩ (by norm_num) hglc
      (by rw [hb0]; decide)
  have h4 : (runTicks [((120000:ℤ), (1:ℝ)), (0, 2)]).buf.toArray =
      [some ⟨120000, 1, max 1 (max 1 2), min 1 (min 1 2), 2⟩] := by
    rw [h3]
    rfl
  refine ⟨by norm_num, hb0, ?_⟩
  rintro ⟨co, hco, c, hceq, hct⟩
  rw [h4, List.mem_singleton] at hco
  subst hco
  cases hceq
  exact absurd hct (by decide)

/-- C7 (amended): the `pushTick` guard `!price || isNaN(price)` only
drops falsy prices — over the reals, exactly price 0 (in JS also `NaN`);
a zero-price tick is a silent no-op that leaves the whole aggregator
state unchanged.  Negative and infinite prices are NOT rejected. -/
theorem pushTick_zero_noop (timestamp : ℤ) (s : AggState) :
    pushTick timestamp 0 s = s := by
  rw [pushTick, if_pos rfl]

/-- C7 counterexample: the finite, strictly negative price -1 (a
non-positive price, which the claim says is silently dropped) is accepted
by `pushTick`: it overwrites `lastPrice` and creates a candle. -/
theorem pushTick_negative_price_counterexample :
    (-1 : ℝ) < 0 ∧
    (pushTick 0 (-1) initAggState).lastPrice = some (-1) ∧
    (pushTick 0 (-1) initAggState).buf.size = 1 ∧
    initAggState.buf.size = 0 ∧
    initAggState.lastPrice = none := by
  have h := pushTick_none 0 (-1) initAggState (by norm_num) rfl
  refine ⟨by norm_num, ?_, ?_, rfl, rfl⟩
  · rw [h]
  · rw [h]
    rfl

/-- C2: two facts about the publish-time gate adjustment.  (1) As
written, the code crashes: `canElevate` is undeclared in strict mode, so
every call that reaches the elevation step aborts with a ReferenceError
and nothing is published — contradicting both the claim and the code's
own comment that gates "never block publishing".  (2) Under the spec's
intended reading of `canElevate` (strict pass AND positive Q-advantage
AND bandit weight ≥ 1), a signal failing strict gates but passing soft
gates IS published, with final confidence
`min(clamp(round(base * (0.6 + 0.4*0.65)), 40, 95), 74) ≤ 74`, below the
75 auto-trade threshold. -/
theorem gate_soft_pass_capping :
    (∀ (ctx : GateContext) (action : String) (base qAdv w : ℝ),
      publishAdjustedSignal ctx action base qAdv w none =
        Except.error "ReferenceError: canElevate is not defined") ∧
    (∀ (ctx : GateContext) (action : String) (base qAdv w : ℝ),
      passesHardGates ctx action false = false →
      passesHardGates ctx action true = true →
      publishAdjustedSignal ctx action base qAdv w
          (some (canElevateIntended (passesHardGates ctx action false) qAdv w)) =
        Except.ok (action,
          min (max 40 (min 95 (jsRound (base * (6/10 + 4/10 * (65/100)))))) 74) ∧
      min (max 40 (min 95 (jsRound (base * (6/10 + 4/10 * (65/100)))))) 74 ≤ 74) := by
  constructor
  · intro ctx action base qAdv w
    rfl
  · intro ctx action base qAdv w hstrict hsoft
    constructor
    · simp only [publishAdjustedSignal, hstrict, hsoft, canElevateIntended,
        Bool.false_and, Bool.false_eq_true, if_false, if_true,
        Bool.false_or, min_self]
      rw [min_assoc, min_self]
    · exact min_le_right _ _

/-- Witness for `gate_soft_pass_capping`: a context whose MACD histogram
(-0.0006) violates the strict BUY tolerance (0.0005) but passes the
relaxed one (0.0009); with base confidence 80 the published confidence is
round(80 * 0.86) = 69 ≤ 74. -/
theorem gate_soft_pass_capping_witness :
    passesHardGates
      ⟨none, [1], none, some ⟨0, 0, -(3/5000)⟩, none, none, none, none,
        none, none, none⟩ "BUY" false = false ∧
    passesHardGates
      ⟨none, [1], none, some ⟨0, 0, -(3/5000)⟩, none, none, none, none,
        none, none, none⟩ "BUY" true = true ∧
    publishAdjustedSignal
      ⟨none, [1], none, some ⟨0, 0, -(3/5000)⟩, none, none, none, none,
        none, none, none⟩ "BUY" 80 0 1
      (some (canElevateIntended
        (passesHardGates
          ⟨none, [1], none, some ⟨0, 0, -(3/5000)⟩, none, none, none, none,
            none, none, none⟩ "BUY" false) 0 1)) =
      Except.ok ("BUY", 69) ∧ (69:ℝ) ≤ 74 := by
  have hML : ¬ ("MEDIUM" : String) = "LOW" := by decide
  have hMH : ¬ ("MEDIUM" : String) = "HIGH" := by decide
  have hBS : ¬ ("BUY" : String) = "SELL" := by decide
  have h1 : passesHardGates
      ⟨none, [1], none, some ⟨0, 0, -(3/5000)⟩, none, none, none, none,
        none, none, none⟩ "BUY" false = false := by
    norm_num [passesHardGates, jsOrStr, configByVol, hML, hMH, hBS]
  have h2 : passesHardGates
      ⟨none, [1], none, some ⟨0, 0, -(3/5000)⟩, none, none, none, none,
        none, none, none⟩ "BUY" true = true := by
    norm_num [passesHardGates, jsOrStr, configByVol, hML, hMH, hBS]
  have h3 := (gate_soft_pass_capping.2 _ "BUY" 80 0 1 h1 h2).1
  have hval : min (max 40 (min 95 (jsRound ((80:ℝ) * (6/10 + 4/10 * (65/100)))))) 74
      = (69:ℝ) := by
    have hr : jsRound ((80:ℝ) * (6/10 + 4/10 * (65/100))) = 69 := by
      rw [jsRound, show (80:ℝ) * (6/10 + 4/10 * (65/100)) + 1/2 = 693/10 by ring]
      rw [show (⌊(693/10 : ℝ)⌋ : ℤ) = 69 from by
        rw [Int.floor_eq_iff]
        norm_num]
      norm_num
    rw [hr]
    rw [min_eq_right (by norm_num : (69:ℝ) ≤ 95),
      max_eq_right (by norm_num : (40:ℝ) ≤ 69),
      min_eq_left (by norm_num : (69:ℝ) ≤ 74)]
  rw [hval] at h3
  exact ⟨h1, h2, h3, by norm_num⟩

/- =============== Theorems: indicator library and encodeState =============== -/

-- === bound lemmas for the indicator library ===

/-- Seeds never exceed a left fold with `max`. -/
theorem le_foldl_max : ∀ (l : List ℝ) (a : ℝ), a ≤ l.foldl max a := by
  intro l
  induction l with
  | nil => intro a; exact le_refl a
  | cons b t ih => intro a; exact le_trans (le_max_left a b) (ih (max a b))

/-- Members never exceed a left fold with `max`. -/
theorem mem_le_foldl_max : ∀ (l : List ℝ) (a x : ℝ), x ∈ l → x ≤ l.foldl max a := by
  intro l
  induction l with
  | nil => intro a x hx; cases hx
  | cons b t ih =>
      intro a x hx
      rcases List.mem_cons.mp hx with h | h
      · subst h; exact le_trans (le_max_right a x) (le_foldl_max t (max a x))
      · exact ih (max a b) x h

/-- Every member of a nonempty list is at most its `jsMax`. -/
theorem le_jsMax (l : List ℝ) (x : ℝ) (hx : x ∈ l) : x ≤ jsMax l := by
  cases l with
  | nil => cases hx
  | cons b t =>
      rcases List.mem_cons.mp hx with h | h
      · subst h; exact le_foldl_max t x
      · exact mem_le_foldl_max t b x h

/-- A left fold with `min` never exceeds its seed. -/
theorem foldl_min_le : ∀ (l : List ℝ) (a : ℝ), l.foldl min a ≤ a := by
  intro l
  induction l with
  | nil => intro a; exact le_refl a
  | cons b t ih => intro a; exact le_trans (ih (min a b)) (min_le_left a b)

/-- A left fold with `min` never exceeds any member. -/
theorem foldl_min_le_mem : ∀ (l : List ℝ) (a x : ℝ), x ∈ l → l.foldl min a ≤ x := by
  intro l
  induction l with
  | nil => intro a x hx; cases hx
  | cons b t ih =>
      intro a x hx
      rcases List.mem_cons.mp hx with h | h
      · subst h; exact le_trans (foldl_min_le t (min a x)) (min_le_right a x)
      · exact ih (min a b) x h

/-- `jsMin` of a nonempty list is at most each member. -/
theorem jsMin_le (l : List ℝ) (x : ℝ) (hx : x ∈ l) : jsMin l ≤ x := by
  cases l with
  | nil => cases hx
  | cons b t =>
      rcases List.mem_cons.mp hx with h | h
      · subst h; exact foldl_min_le t x
      · exact foldl_min_le_mem t b x h

/-- Pointwise properties of a binary zip transfer to its members. -/
theorem forall_mem_zipWith {α β γ : Type} {f : α → β → γ} {P : γ → Prop}
    (hf : ∀ a b, P (f a b)) :
    ∀ (as : List α) (bs : List β), ∀ x ∈ List.zipWith f as bs, P x := by
  intro as
  induction as with
  | nil => intro bs x hx; simp at hx
  | cons a as ih =>
      intro bs x hx
      cases bs with
      | nil => simp at hx
      | cons b bs =>
          rw [List.zipWith_cons_cons] at hx
          rcases List.mem_cons.mp hx with h | h
          · subst h; exact hf a b
          · exact ih bs x h

/-- Pointwise properties of a ternary zip transfer to its members. -/
theorem forall_mem_zipWith3 {α β γ δ : Type} {f : α → β → γ → δ} {P : δ → Prop}
    (hf : ∀ a b c, P (f a b c)) :
    ∀ (as : List α) (bs : List β) (cs : List γ),
      ∀ x ∈ List.zipWith3 f as bs cs, P x := by
  intro as
  induction as with
  | nil => intro bs cs x hx; simp [List.zipWith3] at hx
  | cons a as ih =>
      intro bs cs x hx
      cases bs with
      | nil => simp [List.zipWith3] at hx
      | cons b bs =>
          cases cs with
          | nil => simp [List.zipWith3] at hx
          | cons c cs =>
              simp only [List.zipWith3] at hx
              rcases List.mem_cons.mp hx with h | h
              · subst h; exact hf a b c
              · exact ih bs cs x h

/-- `takeLast` returns a subset of its input. -/
theorem takeLast_subset {α : Type} (n : ℕ) (l : List α) : takeLast n l ⊆ l :=
  List.drop_subset _ _

/-- Every true range is nonnegative. -/
theorem trueRanges_nonneg (highs lows closes : List ℝ) :
    ∀ x ∈ trueRanges highs lows closes, 0 ≤ x :=
  forall_mem_zipWith3
    (fun h l pc =>
      le_trans (abs_nonneg (h - pc))
        (le_trans (le_max_left |h - pc| |l - pc|) (le_max_right (h - l) _)))
    highs.tail lows.tail closes

/-- ATR values are nonnegative. -/
theorem calculateATR_nonneg (highs lows closes : List ℝ) (period : ℕ)
    (a : ℝ) (h : calculateATR highs lows closes period = some a) : 0 ≤ a := by
  simp only [calculateATR] at h
  split_ifs at h
  have ha : (takeLast period (trueRanges highs lows closes)).sum / (period : ℝ) = a :=
    Option.some.inj h
  rw [← ha]
  apply div_nonneg _ (Nat.cast_nonneg period)
  exact List.sum_nonneg fun x hx =>
    trueRanges_nonneg highs lows closes x (takeLast_subset period _ hx)

/-- Arithmetic core of the RSI formula: with nonnegative gain and loss
totals and a nonzero average loss, `100 - 100/(1+rs)` lies in [0, 100]. -/
theorem rsi_core (G L : ℝ) (p : ℕ) (hG : 0 ≤ G) (hL : 0 ≤ L)
    (hz : ¬ L / (p : ℝ) = 0) :
    0 ≤ 100 - 100 / (1 + G / (p : ℝ) / (L / (p : ℝ))) ∧
      100 - 100 / (1 + G / (p : ℝ) / (L / (p : ℝ))) ≤ 100 := by
  have hp0 : (0 : ℝ) ≤ (p : ℝ) := Nat.cast_nonneg p
  have havgL : 0 < L / (p : ℝ) :=
    lt_of_le_of_ne (div_nonneg hL hp0) (Ne.symm hz)
  have hrs : 0 ≤ G / (p : ℝ) / (L / (p : ℝ)) :=
    div_nonneg (div_nonneg hG hp0) (le_of_lt havgL)
  have hden : 0 < 1 + G / (p : ℝ) / (L / (p : ℝ)) := by linarith
  have h1 : 100 / (1 + G / (p : ℝ) / (L / (p : ℝ))) ≤ 100 := by
    rw [div_le_iff hden]; nlinarith
  have h2 : 0 ≤ 100 / (1 + G / (p : ℝ) / (L / (p : ℝ))) :=
    div_nonneg (by norm_num) (le_of_lt hden)
  constructor <;> linarith

/-- RSI values always lie in [0, 100]. -/
theorem calculateRSI_bounds (closes : List ℝ) (period : ℕ) (r : ℝ)
    (h : calculateRSI closes period = some r) : 0 ≤ r ∧ r ≤ 100 := by
  simp only [calculateRSI] at h
  split_ifs at h with h1 h2
  · have : (100 : ℝ) = r := Option.some.inj h
    rw [← this]; norm_num
  · have hr := Option.some.inj h
    rw [← hr]
    apply rsi_core
    · exact List.sum_nonneg fun x hx => by
        rcases List.mem_map.mp hx with ⟨ch, _, rfl⟩
        by_cases hch : 0 < ch
        · rw [if_pos hch]; exact le_of_lt hch
        · rw [if_neg hch]
    · exact List.sum_nonneg fun x hx => by
        rcases List.mem_map.mp hx with ⟨ch, _, rfl⟩
        by_cases hch : 0 < ch
        · rw [if_pos hch]
        · rw [if_neg hch]; exact abs_nonneg ch
    · exact h2

/-- A `getD` sample of a list sits inside any drop/take window covering
its index. -/
theorem getD_mem_drop_take (l : List ℝ) (d j t : ℕ) (hdj : d ≤ j)
    (hjt : j - d < t) (hj : j < l.length) :
    l.getD j 0 ∈ (l.drop d).take t := by
  have hjd : j - d < l.length - d := by omega
  have hlen : j - d < ((l.drop d).take t).length := by
    rw [List.length_take, List.length_drop]
    exact lt_min hjt hjd
  have hget : ((l.drop d).take t)[j - d] = l.getD j 0 := by
    rw [List.getElem_take, List.getElem_drop]
    have hidx : d + (j - d) = j := by omega
    simp only [hidx]
    exact (List.getD_eq_getElem l 0 hj).symm
  rw [← hget]
  exact List.getElem_mem hlen

/-- `getLastD` is the default or a member. -/
theorem getLastD_mem_or {α : Type} (l : List α) (d : α) :
    l.getLastD d = d ∨ l.getLastD d ∈ l := by
  induction l generalizing d with
  | nil => left; rfl
  | cons y ys ih =>
      rw [List.getLastD_cons]
      rcases ih y with h | h
      · right; rw [h]; exact List.mem_cons_self _ _
      · right; exact List.mem_cons_of_mem _ h

/-- Each %K value produced by the Stochastic loop lies in [0, 100]
whenever the three input series are index-aligned with
`low ≤ close ≤ high`. -/
theorem stoch_k_entry_bounds (highs lows closes : List ℝ) (kP : ℕ)
    (hkP : 1 ≤ kP)
    (hlen1 : lows.length = highs.length) (hlen2 : closes.length = highs.length)
    (hwf : ∀ i, i < highs.length →
      lows.getD i 0 ≤ closes.getD i 0 ∧ closes.getD i 0 ≤ highs.getD i 0)
    (i : ℕ) (hilo : kP - 1 ≤ i) (hihi : i < highs.length) :
    (0 : ℝ) ≤
      (if jsMax ((highs.drop (i + 1 - kP)).take kP) =
          jsMin ((lows.drop (i + 1 - kP)).take kP) then (50 : ℝ)
       else (closes.getD i 0 - jsMin ((lows.drop (i + 1 - kP)).take kP)) /
          (jsMax ((highs.drop (i + 1 - kP)).take kP) -
            jsMin ((lows.drop (i + 1 - kP)).take kP)) * 100) ∧
      (if jsMax ((highs.drop (i + 1 - kP)).take kP) =
          jsMin ((lows.drop (i + 1 - kP)).take kP) then (50 : ℝ)
       else (closes.getD i 0 - jsMin ((lows.drop (i + 1 - kP)).take kP)) /
          (jsMax ((highs.drop (i + 1 - kP)).take kP) -
            jsMin ((lows.drop (i + 1 - kP)).take kP)) * 100) ≤ 100 := by
  set hh := jsMax ((highs.drop (i + 1 - kP)).take kP) with hhh
  set ll := jsMin ((lows.drop (i + 1 - kP)).take kP) with hll
  by_cases hflat : hh = ll
  · rw [if_pos hflat]; norm_num
  · rw [if_neg hflat]
    have hd : i + 1 - kP ≤ i := by omega
    have hjt : i - (i + 1 - kP) < kP := by omega
    have hmemH : highs.getD i 0 ∈ (highs.drop (i + 1 - kP)).take kP :=
      getD_mem_drop_take highs (i + 1 - kP) i kP hd hjt hihi
    have hmemL : lows.getD i 0 ∈ (lows.drop (i + 1 - kP)).take kP :=
      getD_mem_drop_take lows (i + 1 - kP) i kP hd hjt (by omega)
    have hup : closes.getD i 0 ≤ hh :=
      le_trans (hwf i hihi).2 (le_jsMax _ _ hmemH)
    have hdown : ll ≤ closes.getD i 0 :=
      le_trans (jsMin_le _ _ hmemL) (hwf i hihi).1
    have hlt : ll < hh :=
      lt_of_le_of_ne (le_trans hdown hup) (Ne.symm hflat)
    have hpos : 0 < hh - ll := by linarith
    constructor
    · apply mul_nonneg _ (by norm_num)
      apply div_nonneg _ (le_of_lt hpos)
      linarith
    · have hq : (closes.getD i 0 - ll) / (hh - ll) ≤ 1 := by
        rw [div_le_one hpos]; linarith
      nlinarith [div_nonneg (show (0:ℝ) ≤ closes.getD i 0 - ll by linarith)
        (le_of_lt hpos)]

/-- The %K component of `calculateStochastic` lies in [0, 100] on
index-aligned inputs with `low ≤ close ≤ high`. -/
theorem calculateStochastic_k_bounds (highs lows closes : List ℝ)
    (kP dP : ℕ) (hkP : 1 ≤ kP)
    (hlen1 : lows.length = highs.length) (hlen2 : closes.length = highs.length)
    (hwf : ∀ i, i < highs.length →
      lows.getD i 0 ≤ closes.getD i 0 ∧ closes.getD i 0 ≤ highs.getD i 0)
    (st : StochResult) (h : calculateStochastic highs lows closes kP dP = some st) :
    0 ≤ st.k ∧ st.k ≤ 100 := by
  simp only [calculateStochastic] at h
  split_ifs at h with h1 h2
  have hst := Option.some.inj h
  have hk : st.k = (((List.range' (kP - 1) (highs.length - (kP - 1))).map
      (fun i =>
        if jsMax ((highs.drop (i + 1 - kP)).take kP) =
            jsMin ((lows.drop (i + 1 - kP)).take kP) then (50 : ℝ)
        else (closes.getD i 0 - jsMin ((lows.drop (i + 1 - kP)).take kP)) /
          (jsMax ((highs.drop (i + 1 - kP)).take kP) -
            jsMin ((lows.drop (i + 1 - kP)).take kP)) * 100)).getLastD 0) := by
    rw [← hst]
  rw [hk]
  rcases getLastD_mem_or ((List.range' (kP - 1) (highs.length - (kP - 1))).map
      (fun i =>
        if jsMax ((highs.drop (i + 1 - kP)).take kP) =
            jsMin ((lows.drop (i + 1 - kP)).take kP) then (50 : ℝ)
        else (closes.getD i 0 - jsMin ((lows.drop (i + 1 - kP)).take kP)) /
          (jsMax ((highs.drop (i + 1 - kP)).take kP) -
            jsMin ((lows.drop (i + 1 - kP)).take kP)) * 100)) 0 with h0 | hmem
  · rw [h0]; norm_num
  · rcases List.mem_map.mp hmem with ⟨i, hi, hvy⟩
    have hrange := List.mem_range'_1.mp hi
    have hilo : kP - 1 ≤ i := hrange.1
    have hihi : i < highs.length := by omega
    rw [← hvy]
    exact stoch_k_entry_bounds highs lows closes kP hkP hlen1 hlen2 hwf i hilo hihi

/-- The Wilder fold preserves nonnegativity (period at least 1). -/
theorem foldl_wilder_nonneg (p : ℕ) (hp : 1 ≤ p) :
    ∀ (l : List ℝ) (acc : ℝ), 0 ≤ acc → (∀ x ∈ l, 0 ≤ x) →
      0 ≤ l.foldl (fun acc d => (acc * ((p : ℝ) - 1) + d) / p) acc := by
  intro l
  induction l with
  | nil => intro acc hacc _; exact hacc
  | cons b t ih =>
      intro acc hacc hl
      apply ih
      · apply div_nonneg _ (Nat.cast_nonneg p)
        have hp1 : (0 : ℝ) ≤ (p : ℝ) - 1 := by
          have : (1 : ℝ) ≤ (p : ℝ) := by exact_mod_cast hp
          linarith
        have hb : 0 ≤ b := hl b (List.mem_cons_self b t)
        nlinarith
      · intro x hx; exact hl x (List.mem_cons_of_mem b hx)

/-- `wilderSmooth` of a nonnegative series is nonnegative. -/
theorem wilderSmooth_nonneg (l : List ℝ) (p : ℕ) (hp : 1 ≤ p)
    (hl : ∀ x ∈ l, 0 ≤ x) : 0 ≤ wilderSmooth l p := by
  rw [wilderSmooth]
  apply foldl_wilder_nonneg p hp
  · apply div_nonneg _ (Nat.cast_nonneg p)
    exact List.sum_nonneg fun x hx => hl x (List.take_subset p l hx)
  · intro x hx; exact hl x (List.drop_subset p l hx)

/-- Both components of every directional-movement pair are nonnegative. -/
theorem dmPairs_nonneg (highs lows : List ℝ) :
    ∀ pr ∈ dmPairs highs lows, 0 ≤ pr.1 ∧ 0 ≤ pr.2 := by
  apply forall_mem_zipWith
  intro hp lp
  by_cases h1 : lp.1 - lp.2 < hp.2 - hp.1 ∧ 0 < hp.2 - hp.1
  · simp only [if_pos h1]; exact ⟨le_of_lt h1.2, le_refl 0⟩
  · simp only [if_neg h1]
    by_cases h2 : hp.2 - hp.1 < lp.1 - lp.2 ∧ 0 < lp.1 - lp.2
    · simp only [if_pos h2]; exact ⟨le_refl 0, le_of_lt h2.2⟩
    · simp only [if_neg h2]; exact ⟨le_refl 0, le_refl 0⟩

/-- Each DI term of the ADX computation is nonnegative. -/
theorem di_nonneg (atr v : ℝ) (hv : 0 ≤ v) :
    0 ≤ (if 0 < atr then v / atr * 100 else 0) := by
  by_cases h : 0 < atr
  · rw [if_pos h]
    exact mul_nonneg (div_nonneg hv (le_of_lt h)) (by norm_num)
  · rw [if_neg h]

/-- Arithmetic core of the DX formula: with nonnegative DI terms it lies
in [0, 100]. -/
theorem dx_core (pDI mDI : ℝ) (h1 : 0 ≤ pDI) (h2 : 0 ≤ mDI) :
    0 ≤ (if 0 < pDI + mDI then |pDI - mDI| / (pDI + mDI) * 100 else 0) ∧
      (if 0 < pDI + mDI then |pDI - mDI| / (pDI + mDI) * 100 else 0) ≤ 100 := by
  by_cases hs : 0 < pDI + mDI
  · rw [if_pos hs]
    have habs : |pDI - mDI| ≤ pDI + mDI := by
      rw [abs_le]; constructor <;> linarith
    have hq : |pDI - mDI| / (pDI + mDI) ≤ 1 := by
      rw [div_le_one hs]; exact habs
    have hq0 : 0 ≤ |pDI - mDI| / (pDI + mDI) :=
      div_nonneg (abs_nonneg _) (le_of_lt hs)
    constructor
    · exact mul_nonneg hq0 (by norm_num)
    · nlinarith
  · rw [if_neg hs]; norm_num

/-- The (single-period) ADX value always lies in [0, 100]. -/
theorem calculateADX_adx_bounds (highs lows closes : List ℝ) (period : ℕ)
    (hper : 1 ≤ period) (a : ADXResult)
    (h : calculateADX highs lows closes period = some a) :
    0 ≤ a.adx ∧ a.adx ≤ 100 := by
  simp only [calculateADX] at h
  by_cases hg1 : highs.length < period * 2
  · rw [if_pos hg1] at h; exact absurd h (by simp)
  rw [if_neg hg1] at h
  by_cases hg2 : (trueRanges highs lows closes).length < period ∨
      ((dmPairs highs lows).map (fun p => p.1)).length < period ∨
      ((dmPairs highs lows).map (fun p => p.2)).length < period
  · rw [if_pos hg2] at h; exact absurd h (by simp)
  rw [if_neg hg2] at h
  have hst := Option.some.inj h
  have hPDM : 0 ≤ wilderSmooth ((dmPairs highs lows).map (fun p => p.1)) period :=
    wilderSmooth_nonneg _ period hper fun x hx => by
      rcases List.mem_map.mp hx with ⟨pr, hpr, rfl⟩
      exact (dmPairs_nonneg highs lows pr hpr).1
  have hMDM : 0 ≤ wilderSmooth ((dmPairs highs lows).map (fun p => p.2)) period :=
    wilderSmooth_nonneg _ period hper fun x hx => by
      rcases List.mem_map.mp hx with ⟨pr, hpr, rfl⟩
      exact (dmPairs_nonneg highs lows pr hpr).2
  have hPDI := di_nonneg (wilderSmooth (trueRanges highs lows closes) period)
    (wilderSmooth ((dmPairs highs lows).map (fun p => p.1)) period) hPDM
  have hMDI := di_nonneg (wilderSmooth (trueRanges highs lows closes) period)
    (wilderSmooth ((dmPairs highs lows).map (fun p => p.2)) period) hMDM
  have hadx : a.adx =
      (if 0 < (if 0 < wilderSmooth (trueRanges highs lows closes) period then
          wilderSmooth ((dmPairs highs lows).map (fun p => p.1)) period /
            wilderSmooth (trueRanges highs lows closes) period * 100 else 0) +
          (if 0 < wilderSmooth (trueRanges highs lows closes) period then
          wilderSmooth ((dmPairs highs lows).map (fun p => p.2)) period /
            wilderSmooth (trueRanges highs lows closes) period * 100 else 0) then
        |(if 0 < wilderSmooth (trueRanges highs lows closes) period then
          wilderSmooth ((dmPairs highs lows).map (fun p => p.1)) period /
            wilderSmooth (trueRanges highs lows closes) period * 100 else 0) -
          (if 0 < wilderSmooth (trueRanges highs lows closes) period then
          wilderSmooth ((dmPairs highs lows).map (fun p => p.2)) period /
            wilderSmooth (trueRanges highs lows closes) period * 100 else 0)| /
          ((if 0 < wilderSmooth (trueRanges highs lows closes) period then
          wilderSmooth ((dmPairs highs lows).map (fun p => p.1)) period /
            wilderSmooth (trueRanges highs lows closes) period * 100 else 0) +
          (if 0 < wilderSmooth (trueRanges highs lows closes) period then
          wilderSmooth ((dmPairs highs lows).map (fun p => p.2)) period /
            wilderSmooth (trueRanges highs lows closes) period * 100 else 0)) * 100
        else 0) := by
    rw [← hst]
  rw [hadx]
  exact dx_core _ _ hPDI hMDI

theorem slotsBounded_update (s : Fin 16 → ℝ) (h : SlotsBounded s)
    (i : Fin 16) (v : ℝ) (hv0 : 0 ≤ v) (hv1 : v ≤ 1) :
    SlotsBounded (Function.update s i v) := by
  intro j hj11 hj14
  by_cases hji : j = i
  · subst hji; rw [Function.update_same]; exact ⟨hv0, hv1⟩
  · rw [Function.update_noteq hji]; exact h j hj11 hj14

theorem slotsBounded_update_exempt (s : Fin 16 → ℝ) (h : SlotsBounded s)
    (i : Fin 16) (hi : i = 11 ∨ i = 14) (v : ℝ) :
    SlotsBounded (Function.update s i v) := by
  intro j hj11 hj14
  have hji : j ≠ i := by rcases hi with rfl | rfl; exact hj11; exact hj14
  rw [Function.update_noteq hji]; exact h j hj11 hj14

theorem clamp01_bounds (v : ℝ) : 0 ≤ max 0 (min 1 v) ∧ max 0 (min 1 v) ≤ 1 :=
  ⟨le_max_left 0 _, max_le (by norm_num) (min_le_left 1 v)⟩

theorem enc0_bounds (rd : Option RegimeData) (s : Fin 16 → ℝ)
    (h : SlotsBounded s) : SlotsBounded (enc0 rd s) := by
  rcases rd with _ | ⟨vol, tr⟩
  · exact h
  rcases vol with _ | v
  · exact h
  apply slotsBounded_update s h 0 _ <;> split_ifs <;> norm_num

theorem enc1_bounds (highs lows closes : List ℝ) (avgPrice : ℝ)
    (s : Fin 16 → ℝ) (h : SlotsBounded s) :
    SlotsBounded (enc1 highs lows closes avgPrice s) := by
  rcases hA : calculateATR highs lows closes 14 with _ | atr
  · simp only [enc1, hA]; exact h
  simp only [enc1, hA]
  split_ifs with hc
  · apply slotsBounded_update s h 1
    · exact le_min (by norm_num)
        (mul_nonneg (div_nonneg (calculateATR_nonneg _ _ _ _ atr hA)
          (le_of_lt hc.2)) (by norm_num))
    · exact min_le_left 1 _
  · exact h

theorem enc2_bounds (closes : List ℝ) (avgPrice : ℝ) (hA : 0 < avgPrice)
    (s : Fin 16 → ℝ) (h : SlotsBounded s) :
    SlotsBounded (enc2 closes avgPrice s) := by
  rcases h12 : calculateEMA closes 12 with _ | e12
  · simp only [enc2, h12]; exact h
  rcases h26 : calculateEMA closes 26 with _ | e26
  · simp only [enc2, h12, h26]; exact h
  simp only [enc2, h12, h26]
  split_ifs with hc
  · apply slotsBounded_update s h 2
    · exact le_min (by norm_num)
        (mul_nonneg (div_nonneg (abs_nonneg _) (le_of_lt hA)) (by norm_num))
    · exact min_le_left 1 _
  · exact h

theorem enc3_bounds (rd : Option RegimeData) (s : Fin 16 → ℝ)
    (h : SlotsBounded s) : SlotsBounded (enc3 rd s) := by
  rcases rd with _ | ⟨vol, tr⟩
  · exact h
  rcases tr with _ | tr
  · exact h
  apply slotsBounded_update s h 3 _ <;> split_ifs <;> norm_num

theorem enc4_bounds (closes : List ℝ) (s : Fin 16 → ℝ)
    (h : SlotsBounded s) : SlotsBounded (enc4 closes s) := by
  rcases hR : calculateRSI closes 14 with _ | rsi
  · simp only [enc4, hR]; exact h
  simp only [enc4, hR]
  rcases calculateRSI_bounds closes 14 rsi hR with ⟨hr0, hr1⟩
  apply slotsBounded_update s h 4
  · exact div_nonneg hr0 (by norm_num)
  · rw [div_le_one (by norm_num : (0:ℝ) < 100)]; exact hr1

theorem enc5_bounds (closes : List ℝ) (s : Fin 16 → ℝ)
    (h : SlotsBounded s) : SlotsBounded (enc5 closes s) := by
  rcases hM : calculateMACD closes 12 26 9 with _ | macd
  · simp only [enc5, hM]; exact h
  simp only [enc5, hM]
  apply slotsBounded_update s h 5
  · have : -(1/2 : ℝ) ≤ max (-(1/2)) (min (1/2) (macd.histogram * 1000)) :=
      le_max_left _ _
    linarith
  · have : max (-(1/2 : ℝ)) (min (1/2) (macd.histogram * 1000)) ≤ 1/2 :=
      max_le (by norm_num) (min_le_left _ _)
    linarith

theorem enc6_bounds (highs lows closes : List ℝ) (s : Fin 16 → ℝ)
    (h : SlotsBounded s) : SlotsBounded (enc6 highs lows closes s) := by
  rcases hX : calculateADX highs lows closes 14 with _ | adx
  · simp only [enc6, hX]; exact h
  simp only [enc6, hX]
  rcases calculateADX_adx_bounds highs lows closes 14 (by norm_num) adx hX with
    ⟨ha0, _⟩
  apply slotsBounded_update s h 6
  · exact le_min (by norm_num) (div_nonneg ha0 (by norm_num))
  · exact min_le_left 1 _

theorem enc7_bounds (highs lows closes : List ℝ)
    (hlen1 : lows.length = highs.length) (hlen2 : closes.length = highs.length)
    (hwf : ∀ i, i < highs.length →
      lows.getD i 0 ≤ closes.getD i 0 ∧ closes.getD i 0 ≤ highs.getD i 0)
    (s : Fin 16 → ℝ) (h : SlotsBounded s) :
    SlotsBounded (enc7 highs lows closes s) := by
  rcases hS : calculateStochastic highs lows closes 14 3 with _ | st
  · simp only [enc7, hS]; exact h
  simp only [enc7, hS]
  rcases calculateStochastic_k_bounds highs lows closes 14 3 (by norm_num)
    hlen1 hlen2 hwf st hS with ⟨hk0, hk1⟩
  apply slotsBounded_update s h 7
  · exact div_nonneg hk0 (by norm_num)
  · rw [div_le_one (by norm_num : (0:ℝ) < 100)]; exact hk1

theorem enc8_bounds (hour minute : ℕ) (hh : hour < 24) (hm : minute < 60)
    (s : Fin 16 → ℝ) (h : SlotsBounded s) :
    SlotsBounded (enc8 hour minute s) := by
  apply slotsBounded_update s h 8
  · exact div_nonneg (Nat.cast_nonneg _) (by norm_num)
  · rw [div_le_one (by norm_num : (0:ℝ) < 24 * 60)]
    have : ((hour * 60 + minute : ℕ) : ℝ) ≤ ((1439 : ℕ) : ℝ) :=
      Nat.cast_le.mpr (by omega)
    push_cast at this ⊢
    linarith

theorem enc9_bounds (stability : ℝ) (h0 : 0 ≤ stability)
    (h100 : stability ≤ 100) (s : Fin 16 → ℝ) (h : SlotsBounded s) :
    SlotsBounded (enc9 stability s) := by
  apply slotsBounded_update s h 9
  · exact div_nonneg h0 (by norm_num)
  · rw [div_le_one (by norm_num : (0:ℝ) < 100)]; exact h100

theorem enc10_bounds (w l : ℕ) (s : Fin 16 → ℝ) (h : SlotsBounded s) :
    SlotsBounded (enc10 w l s) := by
  apply slotsBounded_update s h 10
  · split_ifs with ht
    · exact div_nonneg (Nat.cast_nonneg w)
        (add_nonneg (Nat.cast_nonneg w) (Nat.cast_nonneg l))
    · norm_num
  · split_ifs with ht
    · have hpos : (0:ℝ) < (w:ℝ) + (l:ℝ) := by
        have : (0:ℝ) < ((w + l : ℕ) : ℝ) := Nat.cast_pos.mpr ht
        push_cast at this; linarith
      rw [div_le_one hpos]
      have : ((w : ℕ) : ℝ) ≤ ((w + l : ℕ) : ℝ) := Nat.cast_le.mpr (by omega)
      push_cast at this; linarith
    · norm_num

theorem enc11_bounds (streak : ℤ) (s : Fin 16 → ℝ) (h : SlotsBounded s) :
    SlotsBounded (enc11 streak s) :=
  slotsBounded_update_exempt s h 11 (Or.inl rfl) _

theorem enc12_bounds (rd : Option RegimeData) (stability : ℝ)
    (s : Fin 16 → ℝ) (h : SlotsBounded s) :
    SlotsBounded (enc12 rd stability s) := by
  have hbase : SlotsBounded (Function.update s 12 (1/2)) :=
    slotsBounded_update s h 12 _ (by norm_num) (by norm_num)
  rcases rd with _ | rd
  · exact hbase
  simp only [enc12]
  apply slotsBounded_update _ hbase 12
  · exact (clamp01_bounds _).1
  · exact (clamp01_bounds _).2

theorem enc13_bounds (closes : List ℝ) (s : Fin 16 → ℝ)
    (h : SlotsBounded s) : SlotsBounded (enc13 closes s) := by
  rcases hE : calculateEMA closes 21 with _ | e21
  · simp only [enc13, hE]; exact h
  simp only [enc13, hE]
  split_ifs with hc hgt
  · exact slotsBounded_update s h 13 _ (by norm_num) (by norm_num)
  · exact slotsBounded_update s h 13 _ (by norm_num) (by norm_num)
  · exact h

theorem enc14_bounds (closes : List ℝ) (s : Fin 16 → ℝ)
    (h : SlotsBounded s) : SlotsBounded (enc14 closes s) := by
  rcases hB : calculateBollingerBands closes 20 2 with _ | bb
  · simp only [enc14, hB]; exact h
  simp only [enc14, hB]
  exact slotsBounded_update_exempt s h 14 (Or.inr rfl) _

theorem enc15_bounds (highs lows closes : List ℝ) (s : Fin 16 → ℝ)
    (h : SlotsBounded s) : SlotsBounded (enc15 highs lows closes s) := by
  rcases hC : calculateCCI highs lows closes 20 with _ | cci
  · simp only [enc15, hC]; exact h
  simp only [enc15, hC]
  exact slotsBounded_update s h 15 _ (clamp01_bounds _).1 (clamp01_bounds _).2

theorem encPat_bounds (ohlc : List Candle) (s : Fin 16 → ℝ)
    (h : SlotsBounded s) : SlotsBounded (encPat ohlc s) := by
  simp only [encPat]
  split_ifs with hc
  · apply slotsBounded_update _ _ 15 _ (clamp01_bounds _).1 (clamp01_bounds _).2
    exact slotsBounded_update s h 12 _ (clamp01_bounds _).1 (clamp01_bounds _).2
  · exact h

-- === slot pass-through lemmas for encodeState ===

theorem enc11_apply (streak : ℤ) (s : Fin 16 → ℝ) :
    enc11 streak s 11 = 1/2 + (streak : ℝ) / 20 :=
  Function.update_same 11 _ s

theorem enc12_apply_ne (rd : Option RegimeData) (stability : ℝ)
    (s : Fin 16 → ℝ) (j : Fin 16) (hj : j ≠ 12) :
    enc12 rd stability s j = s j := by
  rcases rd with _ | rd
  · exact Function.update_noteq hj _ s
  · simp only [enc12]
    rw [Function.update_noteq hj, Function.update_noteq hj]

theorem enc13_apply_ne (closes : List ℝ) (s : Fin 16 → ℝ) (j : Fin 16)
    (hj : j ≠ 13) : enc13 closes s j = s j := by
  rcases hE : calculateEMA closes 21 with _ | e21
  · simp only [enc13, hE]
  · simp only [enc13, hE]
    split_ifs
    · exact Function.update_noteq hj _ s
    · exact Function.update_noteq hj _ s
    · rfl

theorem enc14_apply_ne (closes : List ℝ) (s : Fin 16 → ℝ) (j : Fin 16)
    (hj : j ≠ 14) : enc14 closes s j = s j := by
  rcases hB : calculateBollingerBands closes 20 2 with _ | bb
  · simp only [enc14, hB]
  · simp only [enc14, hB]
    exact Function.update_noteq hj _ s

theorem enc14_apply (closes : List ℝ) (s : Fin 16 → ℝ) (bb : BBResult)
    (hB : calculateBollingerBands closes 20 2 = some bb) :
    enc14 closes s 14 = bb.percentB := by
  simp only [enc14, hB]
  exact Function.update_same 14 _ s

theorem enc15_apply_ne (highs lows closes : List ℝ) (s : Fin 16 → ℝ)
    (j : Fin 16) (hj : j ≠ 15) : enc15 highs lows closes s j = s j := by
  rcases hC : calculateCCI highs lows closes 20 with _ | cci
  · simp only [enc15, hC]
  · simp only [enc15, hC]
    exact Function.update_noteq hj _ s

theorem encPat_apply_ne (ohlc : List Candle) (s : Fin 16 → ℝ) (j : Fin 16)
    (hj12 : j ≠ 12) (hj15 : j ≠ 15) : encPat ohlc s j = s j := by
  simp only [encPat]
  split_ifs
  · rw [Function.update_noteq hj15, Function.update_noteq hj12]
  · rfl


/-- Index-aligned well-formedness of the mapped OHLC series. -/
theorem mapped_wf (ohlc : List Candle)
    (hwf : ∀ c ∈ ohlc, 0 < c.l ∧ c.l ≤ c.c ∧ c.c ≤ c.h) :
    ∀ i, i < (ohlc.map (fun c => c.h)).length →
      (ohlc.map (fun c => c.l)).getD i 0 ≤ (ohlc.map (fun c => c.c)).getD i 0 ∧
      (ohlc.map (fun c => c.c)).getD i 0 ≤ (ohlc.map (fun c => c.h)).getD i 0 := by
  intro i hi
  rw [List.length_map] at hi
  have hl : (ohlc.map (fun c => c.l)).getD i 0 = ohlc[i].l := by
    rw [List.getD_eq_getElem _ _ (by rw [List.length_map]; exact hi),
      List.getElem_map]
  have hc : (ohlc.map (fun c => c.c)).getD i 0 = ohlc[i].c := by
    rw [List.getD_eq_getElem _ _ (by rw [List.length_map]; exact hi),
      List.getElem_map]
  have hh : (ohlc.map (fun c => c.h)).getD i 0 = ohlc[i].h := by
    rw [List.getD_eq_getElem _ _ (by rw [List.length_map]; exact hi),
      List.getElem_map]
  rcases hwf ohlc[i] (List.getElem_mem hi) with ⟨_, h1, h2⟩
  rw [hl, hc, hh]
  exact ⟨h1, h2⟩

/-- The trailing 20-close average is positive for 50 well-formed candles. -/
theorem avgPrice_pos (ohlc : List Candle) (hlen : 50 ≤ ohlc.length)
    (hwf : ∀ c ∈ ohlc, 0 < c.l ∧ c.l ≤ c.c ∧ c.c ≤ c.h) :
    0 < (takeLast 20 (ohlc.map (fun c => c.c))).sum / 20 := by
  apply div_pos _ (by norm_num)
  apply List.sum_pos
  · intro x hx
    rcases List.mem_map.mp (takeLast_subset _ _ hx) with ⟨c, hc, rfl⟩
    rcases hwf c hc with ⟨h0, h1, _⟩
    linarith
  · have h20 : (takeLast 20 (ohlc.map (fun c => c.c))).length = 20 := by
      rw [takeLast, List.length_drop, List.length_map]
      omega
    intro hnil
    rw [hnil] at h20
    simp at h20

/-- C5: on at least 50 candles each with positive low and
`low ≤ close ≤ high`, a stability reading in [0, 100] and a valid clock,
every slot of the encoded state vector lies in [0, 1] EXCEPT slots
[11] (streak) and [14] (Bollinger %B): slot [11] is written as the
unclamped `0.5 + streak/20` (second conjunct), escaping [0, 1] whenever
|streak| > 10, and slot [14] is the unclamped %B.  With fewer than 50
candles every slot is the 0.5 default (third conjunct). -/
theorem encodeState_range (ohlc : List Candle) (regime : Option RegimeData)
    (hour minute : ℕ) (stability : ℝ) (wins losses : ℕ) (streak : ℤ)
    (hwf : ∀ c ∈ ohlc, 0 < c.l ∧ c.l ≤ c.c ∧ c.c ≤ c.h)
    (hst0 : 0 ≤ stability) (hst1 : stability ≤ 100)
    (hhour : hour < 24) (hminute : minute < 60) :
    (∀ i : Fin 16, i ≠ 11 → i ≠ 14 →
      0 ≤ encodeState ohlc regime hour minute stability wins losses streak i ∧
      encodeState ohlc regime hour minute stability wins losses streak i ≤ 1) ∧
    (50 ≤ ohlc.length →
      encodeState ohlc regime hour minute stability wins losses streak 11 =
        1/2 + (streak : ℝ) / 20) ∧
    (ohlc.length < 50 →
      ∀ i : Fin 16,
        encodeState ohlc regime hour minute stability wins losses streak i
          = 1/2) := by
  refine ⟨?_, ?_, ?_⟩
  · intro i hi11 hi14
    by_cases hlen : ohlc.length < 50
    · simp only [encodeState, if_pos hlen]
      norm_num
    · simp only [encodeState, if_neg hlen]
      have hbase : SlotsBounded (fun _ : Fin 16 => (1/2 : ℝ)) :=
        fun _ _ _ => by norm_num
      have havg := avgPrice_pos ohlc (not_lt.mp hlen) hwf
      have hlen1 : (ohlc.map (fun c => c.l)).length =
          (ohlc.map (fun c => c.h)).length := by
        rw [List.length_map, List.length_map]
      have hlen2 : (ohlc.map (fun c => c.c)).length =
          (ohlc.map (fun c => c.h)).length := by
        rw [List.length_map, List.length_map]
      exact encPat_bounds _ _
        (enc15_bounds _ _ _ _
          (enc14_bounds _ _
            (enc13_bounds _ _
              (enc12_bounds _ _ _
                (enc11_bounds _ _
                  (enc10_bounds _ _ _
                    (enc9_bounds _ hst0 hst1 _
                      (enc8_bounds _ _ hhour hminute _
                        (enc7_bounds _ _ _ hlen1 hlen2 (mapped_wf ohlc hwf) _
                          (enc6_bounds _ _ _ _
                            (enc5_bounds _ _
                              (enc4_bounds _ _
                                (enc3_bounds _ _
                                  (enc2_bounds _ _ havg _
                                    (enc1_bounds _ _ _ _ _
                                      (enc0_bounds _ _ hbase))))))))))))))))
        i hi11 hi14
  · intro hge
    have hlen : ¬ ohlc.length < 50 := not_lt.mpr hge
    simp only [encodeState, if_neg hlen]
    rw [encPat_apply_ne _ _ _ (by decide) (by decide),
      enc15_apply_ne _ _ _ _ _ (by decide),
      enc14_apply_ne _ _ _ (by decide),
      enc13_apply_ne _ _ _ (by decide),
      enc12_apply_ne _ _ _ _ (by decide),
      enc11_apply]
  · intro hlt i
    simp only [encodeState, if_pos hlt]

/-- Witness for `encodeState_range`: 50 flat candles at price 10 with
neutral counters keep slot 0 inside [0, 1]. -/
theorem encodeState_range_witness :
    0 ≤ encodeState (List.replicate 50 (⟨0, 10, 10, 10, 10⟩ : Candle))
        none 0 0 50 0 0 0 0 ∧
      encodeState (List.replicate 50 (⟨0, 10, 10, 10, 10⟩ : Candle))
        none 0 0 50 0 0 0 0 ≤ 1 :=
  (encodeState_range (List.replicate 50 ⟨0, 10, 10, 10, 10⟩) none 0 0 50 0 0 0
    (fun c hc => by rw [List.eq_of_mem_replicate hc]; norm_num)
    (by norm_num) (by norm_num) (by norm_num) (by norm_num)).1
    0 (by decide) (by decide)

theorem cexOhlc_length : cexOhlc.length = 50 := by
  simp [cexOhlc, cexVals]

theorem cexOhlc_closes :
    cexOhlc.map (fun c => c.c) = List.replicate 30 (10 : ℝ) ++ cexVals := by
  simp [cexOhlc, cexCandle, Function.comp_def]

theorem cex_bb :
    calculateBollingerBands (List.replicate 30 (10 : ℝ) ++ cexVals) 20 2 =
      some ⟨12, 10, 8, 5/4⟩ := by
  have hL : (List.replicate 30 (10 : ℝ) ++ cexVals).length = 50 := by
    simp [cexVals]
  have hdrop : takeLast 20 (List.replicate 30 (10 : ℝ) ++ cexVals) = cexVals := by
    rw [takeLast, hL]
    have h30 : (50 - 20 : ℕ) = 30 := by norm_num
    rw [h30]
    have hrep : (List.replicate 30 (10 : ℝ)).length = 30 := by simp
    nth_rewrite 1 [← hrep]
    rw [List.drop_left]
  have hlast : (List.replicate 30 (10 : ℝ) ++ cexVals).getLastD 0 = 13 := by
    rw [List.getLastD_eq_getLast?,
      List.getLast?_append_of_ne_nil _ (by simp [cexVals])]
    simp [cexVals]
  have hsum : cexVals.sum = (200 : ℝ) := by norm_num [cexVals]
  have h10 : (200 : ℝ) / 20 = 10 := by norm_num
  simp only [calculateBollingerBands, hL, Nat.cast_ofNat]
  rw [if_neg (by norm_num)]
  simp only [hdrop, hlast, hsum, h10]
  have hvar : ((cexVals.map (fun val => ((val - 10) ^ 2 : ℝ))).sum / 20) = 1 := by
    norm_num [cexVals]
  simp only [hvar, Real.sqrt_one]
  rw [if_pos (by norm_num : (1/10000 : ℝ) < 2 * 1 * 2)]
  simp only [Option.some.injEq, BBResult.mk.injEq]
  norm_num

/-- C5 counterexample: fifty well-formed candles, a streak of 20 and
otherwise neutral inputs put slot [11] at 1.5 and slot [14] at 1.25,
both outside [0, 1]. -/
theorem encodeState_range_counterexample :
    (∀ c ∈ cexOhlc, 0 < c.l ∧ c.l ≤ c.c ∧ c.c ≤ c.h) ∧
    encodeState cexOhlc none 0 0 50 0 0 20 11 = 3/2 ∧
    encodeState cexOhlc none 0 0 50 0 0 20 14 = 5/4 ∧
    ¬ ((3/2 : ℝ) ≤ 1) ∧ ¬ ((5/4 : ℝ) ≤ 1) := by
  have hlen : ¬ cexOhlc.length < 50 := by rw [cexOhlc_length]; omega
  refine ⟨?_, ?_, ?_, by norm_num, by norm_num⟩
  · intro c hc
    rcases List.mem_append.mp hc with h | h
    · rw [List.eq_of_mem_replicate h]; norm_num [cexCandle]
    · rcases List.mem_map.mp h with ⟨v, hv, rfl⟩
      have hv0 : (0 : ℝ) < v := by fin_cases hv <;> norm_num
      simp only [cexCandle]
      exact ⟨hv0, le_refl v, le_refl v⟩
  · simp only [encodeState, if_neg hlen]
    rw [encPat_apply_ne _ _ _ (by decide) (by decide),
      enc15_apply_ne _ _ _ _ _ (by decide),
      enc14_apply_ne _ _ _ (by decide),
      enc13_apply_ne _ _ _ (by decide),
      enc12_apply_ne _ _ _ _ (by decide),
      enc11_apply]
    norm_num
  · simp only [encodeState, if_neg hlen]
    rw [encPat_apply_ne _ _ _ (by decide) (by decide),
      enc15_apply_ne _ _ _ _ _ (by decide)]
    rw [cexOhlc_closes, enc14_apply _ _ _ cex_bb]

-- === C10 theorem ===

/-- C10: for every input whose `highs` hold at least `period ≥ 1` samples
(the only length the source guards), `calculateWilliamsR` always returns
a value — in particular, when the trailing window is completely flat
(highest high = lowest low) it returns -50 instead of dividing by zero.
In this real-number embedding every returned value is finite by
construction; the flat case never reaches the division. -/
theorem calculateWilliamsR_flat_and_total :
    ∀ (highs lows closes : List ℝ) (period : ℕ),
      1 ≤ period → period ≤ highs.length →
      (∃ r, calculateWilliamsR highs lows closes period = some r) ∧
      (jsMax (takeLast period highs) = jsMin (takeLast period lows) →
        calculateWilliamsR highs lows closes period = some (-50)) := by
  intro highs lows closes period hper hlen
  have hguard : ¬ highs.length < period := not_lt.mpr hlen
  constructor
  · rw [calculateWilliamsR, if_neg hguard]
    by_cases hflat : jsMax (takeLast period highs) = jsMin (takeLast period lows)
    · exact ⟨-50, by rw [if_pos hflat]⟩
    · exact ⟨_, by rw [if_neg hflat]⟩
  · intro hflat
    rw [calculateWilliamsR, if_neg hguard]
    rw [if_pos hflat]

/-- Witness for `calculateWilliamsR_flat_and_total`: a 3-sample flat
window at price 5 yields -50. -/
theorem calculateWilliamsR_flat_witness :
    calculateWilliamsR [5, 5, 5] [5, 5, 5] [5] 3 = some (-50) := by
  refine (calculateWilliamsR_flat_and_total [5, 5, 5] [5, 5, 5] [5] 3
    (by norm_num) (by norm_num)).2 ?_
  norm_num [takeLast, jsMax, jsMin]
